import Mathlib

/-!
# Verification of the TOC-based PDF → HTML converter

Shallow embedding of the converter's core (source: `src/pdf_converter.py`,
`src/utils.py`) and proofs about it.  Pure text manipulation is modelled over
`List Char` / `String`; page indices are integers; similarity scores are exact
rationals.  The PyMuPDF document access layer (page texts, text blocks,
tables, images) is treated as opaque input data, and `difflib.SequenceMatcher
.ratio` is abstracted as a rational-valued similarity parameter.
-/

/-! ## Character classes (Python `\s`, `\d`, `str.lower`, ASCII range) -/

/-- Python regex `\s` restricted to ASCII: space, tab, newline, carriage
return, vertical tab, form feed. -/
def pySpace (c : Char) : Bool :=
  c = ' ' || c = '\t' || c = '\n' || c = '\r' || c = '\x0b' || c = '\x0c'

/-- Python regex `\d` restricted to ASCII: `'0'`-`'9'`. -/
def pyDigit (c : Char) : Bool := c.isDigit

/-- Python `str.lower` restricted to ASCII, which is `Char.toLower`. -/
def pyLower (c : Char) : Char := Char.toLower c

/-! ## List-level string helpers -/

/-- Worker for `collapseWs`; the flag records whether the previous character
was whitespace (whose run has already emitted its single `' '`). -/
def collapseWsAux : Bool → List Char → List Char
  | _, [] => []
  | prevSpace, c :: cs =>
    if pySpace c then
      if prevSpace then collapseWsAux true cs
      else ' ' :: collapseWsAux true cs
    else c :: collapseWsAux false cs

/-- Collapse every maximal run of whitespace to a single `' '`:
the effect of `re.sub(r'\s+', ' ', text)`. -/
def collapseWs (l : List Char) : List Char := collapseWsAux false l

/-- Python `str.strip()`: drop leading and trailing whitespace. -/
def pyStrip (l : List Char) : List Char :=
  ((l.dropWhile pySpace).reverse.dropWhile pySpace).reverse

/-- Does a character list match the regex fragment `\s*\d+` in full? -/
def spacesThenDigits (l : List Char) : Bool :=
  let r := l.dropWhile pySpace
  !r.isEmpty && r.all pyDigit

/-- Start position of the leftmost match of `(?<=\D)\s*\d+$`: the smallest
`p ≥ 1` such that the suffix from `p` is whitespace followed by a digit run
and the character at `p - 1` is not a digit.  `none` when there is no match. -/
def footnoteStart (l : List Char) : Option Nat :=
  (List.range l.length).find? fun p =>
    decide (1 ≤ p) && !pyDigit (l.getD (p - 1) '0') && spacesThenDigits (l.drop p)

/-- `re.sub(r'(?<=\D)\s*\d+$', '', ·)`: delete the matched trailing footnote
number (the whole suffix from the match start), if any. -/
def stripTrailingFootnote (l : List Char) : List Char :=
  match footnoteStart l with
  | some p => l.take p
  | none => l

/-- `_normalize_text` (pdf_converter.py lines 621-634) on character lists:
lower-case, collapse whitespace runs, strip one trailing footnote-style
number that follows a non-digit, trim. -/
def normalizeList (l : List Char) : List Char :=
  pyStrip (stripTrailingFootnote (collapseWs (l.map pyLower)))

/-- `PdfConverter._normalize_text` on strings. -/
def normalizeText (s : String) : String := ⟨normalizeList s.data⟩

/-- Does the string end in a (ASCII) digit? -/
def endsInDigit (s : String) : Bool :=
  match s.data.getLast? with
  | some c => pyDigit c
  | none => false

/-! ## HTML escaping (`utils.escape_html`) -/

/-- One `str.replace(old, new)` pass for a single-character pattern (each of
the five replacements in `escape_html` replaces one character). -/
def replaceChar (p : Char) (rep : List Char) : List Char → List Char
  | [] => []
  | c :: cs => if c = p then rep ++ replaceChar p rep cs else c :: replaceChar p rep cs

/-- The chained replacements of `utils.escape_html` (utils.py lines 238-256):
`&` first, then `<`, `>`, `"`, `'`. -/
def escapeHtmlList (l : List Char) : List Char :=
  replaceChar '\'' "&#39;".data
    (replaceChar '"' "&quot;".data
      (replaceChar '>' "&gt;".data
        (replaceChar '<' "&lt;".data
          (replaceChar '&' "&amp;".data l))))

/-- `utils.escape_html`: the falsy (empty) input short-circuits to `''`. -/
def escape_html (s : String) : String :=
  if s.data.isEmpty then "" else ⟨escapeHtmlList s.data⟩

/-- Per-character view of `escape_html` (the five patterns are single
characters whose replacements introduce no further matches). -/
def escChar (c : Char) : List Char :=
  if c = '&' then "&amp;".data
  else if c = '<' then "&lt;".data
  else if c = '>' then "&gt;".data
  else if c = '"' then "&quot;".data
  else if c = '\'' then "&#39;".data
  else [c]

/-- Modelled from the spec: claim C8's round-trip decodes "the HTML entities
(`&amp;`, `&lt;`, `&gt;`, `&quot;`, `&#39;`)"; no decoder exists in the
source, so this scanner replaces each entity occurrence by its character,
left to right. -/
def unescapeHtmlList : List Char → List Char
  | [] => []
  | c :: cs =>
    if "&amp;".data.isPrefixOf (c :: cs) then '&' :: unescapeHtmlList (cs.drop 4)
    else if "&lt;".data.isPrefixOf (c :: cs) then '<' :: unescapeHtmlList (cs.drop 3)
    else if "&gt;".data.isPrefixOf (c :: cs) then '>' :: unescapeHtmlList (cs.drop 3)
    else if "&quot;".data.isPrefixOf (c :: cs) then '"' :: unescapeHtmlList (cs.drop 5)
    else if "&#39;".data.isPrefixOf (c :: cs) then '\'' :: unescapeHtmlList (cs.drop 4)
    else c :: unescapeHtmlList cs
termination_by l => l.length
decreasing_by
  · simp; omega
  · simp; omega
  · simp; omega
  · simp; omega
  · simp; omega
  · simp

/-- String-level entity decoder for the claim C8 round-trip. -/
def unescapeHtml (s : String) : String := ⟨unescapeHtmlList s.data⟩

/-! ## Data model (`TocEntry`, `MatchResult`, body text blocks) -/

/-- `TocEntry` (pdf_converter.py lines 28-36). -/
structure TocEntry where
  raw_text : String
  clean_text : String
  heading_level : Nat
  page_number : Nat
  is_section : Bool
  numbering : String
  deriving DecidableEq

/-- One body text block as produced by `_extract_pages_data` (lines 450-499):
merged span text plus the or-ed bold/italic span flags.  The bounding box is
consumed only by the PyMuPDF table-geometry branch, which is external. -/
structure Block where
  text : String
  is_bold : Bool
  is_italic : Bool
  deriving DecidableEq

/-- One entry of a failed match's `suggestions` list (lines 591-596). -/
structure Suggestion where
  text : String
  page : Int
  similarity : Rat
  deriving DecidableEq

/-- `MatchResult` (pdf_converter.py lines 39-47). -/
structure MatchResult where
  toc_entry : TocEntry
  matched : Bool
  matched_text : String := ""
  page_num : Int := 0
  similarity : Rat := 0
  suggestions : List Suggestion := []
  deriving DecidableEq

/-! ## HTML reconstruction (`_generate_html`) -/

/-- The heading lookup built by `_generate_html` (lines 655-661): normalized
matched text → owning `TocEntry`, for successful section-type matches whose
normalized key has length ≥ 2. -/
def buildHeadingMap (mrs : List MatchResult) : List (String × TocEntry) :=
  mrs.filterMap fun mr =>
    if mr.matched = true ∧ mr.toc_entry.is_section = true ∧
        2 ≤ (normalizeText mr.matched_text).length then
      some (normalizeText mr.matched_text, mr.toc_entry)
    else none

/-- Python dict lookup: the last binding for a key wins. -/
def dictLookup (m : List (String × TocEntry)) (k : String) : Option TocEntry :=
  m.reverse.lookup k

/-- Rendering of one body text block by `_generate_html` (lines 687-721), in
the `extract_tables = False` configuration where `table_rects` is empty and
no block is skipped as table text.  `none` when the block is skipped (blank,
or a bare page number). -/
def renderBlock (hm : List (String × TocEntry)) (b : Block) : Option String :=
  let stripped : List Char := pyStrip b.text.data
  if stripped.isEmpty then none
  else if stripped.all pyDigit then none
  else
    match dictLookup hm (normalizeText b.text) with
    | some entry =>
      some ("<h" ++ toString entry.heading_level ++ ">" ++ escape_html b.text
        ++ "</h" ++ toString entry.heading_level ++ ">")
    | none =>
      let e := escape_html b.text
      let e := if b.is_bold then "<strong>" ++ e ++ "</strong>" else e
      let e := if b.is_italic then "<em>" ++ e ++ "</em>" else e
      some ("<p>" ++ e ++ "</p>")

/-! ## TOC parsing (`_parse_toc_entries` and helpers) -/

/-- Python `text.split('\n')` on character lists. -/
def splitLinesAux (acc : List Char) : List Char → List (List Char)
  | [] => [acc.reverse]
  | c :: cs =>
    if c = '\n' then acc.reverse :: splitLinesAux [] cs
    else splitLinesAux (c :: acc) cs

/-- All lines of a page text, in order. -/
def splitLines (l : List Char) : List (List Char) := splitLinesAux [] l

/-- `int(...)` on a digit run. -/
def digitsToNat (l : List Char) : Nat :=
  l.foldl (fun n c => 10 * n + (c.toNat - '0'.toNat)) 0

/-- Python `a.lower().startswith(b.lower())`. -/
def startsWithLower (t pre : String) : Bool :=
  (pre.data.map pyLower).isPrefixOf (t.data.map pyLower)

/-- `re.search(r'[.\s]*(\d+)\s*$', line)`: succeeds iff, after discarding
trailing whitespace, the line ends in a digit run; the captured group is
that final digit run. -/
def trailingPageNumber (l : List Char) : Option Nat :=
  let t := (l.reverse.dropWhile pySpace).reverse
  let ds := (t.reverse.takeWhile pyDigit).reverse
  if ds.isEmpty then none else some (digitsToNat ds)

/-- Does `l` match `\s*\.{2,}\s*\d+\s*` in full (the suffix deleted by the
first `clean` substitution, line 362)? -/
def dotsPageSuffix (l : List Char) : Bool :=
  let l1 := l.dropWhile pySpace
  let dots := l1.takeWhile (fun c => c = '.')
  let l2 := l1.dropWhile (fun c => c = '.')
  let l3 := l2.dropWhile pySpace
  let ds := l3.takeWhile pyDigit
  let l4 := l3.dropWhile pyDigit
  decide (2 ≤ dots.length) && !ds.isEmpty && l4.all pySpace

/-- Leftmost match start of `\s*\.{2,}\s*\d+\s*$` in `l`, if any. -/
def sub1Start (l : List Char) : Option Nat :=
  (List.range (l.length + 1)).find? fun p => dotsPageSuffix (l.drop p)

/-- Does `l` match `\s+\d+\s*` in full (the suffix deleted by the second
`clean` substitution, line 363)? -/
def wsPageSuffix (l : List Char) : Bool :=
  let sp := l.takeWhile pySpace
  let l1 := l.dropWhile pySpace
  let ds := l1.takeWhile pyDigit
  let l2 := l1.dropWhile pyDigit
  !sp.isEmpty && !ds.isEmpty && l2.all pySpace

/-- Leftmost match start of `\s+\d+\s*$` in `l`, if any. -/
def sub2Start (l : List Char) : Option Nat :=
  (List.range (l.length + 1)).find? fun p => wsPageSuffix (l.drop p)

/-- Scanner for the tail of the numbering pattern `\d+(?:\.\d+)*\.?` after
its first character: the flag records whether the scan is inside a digit run
(`true`) or has just consumed a `'.'` (`false`); acceptance at end of input
in state `false` is the optional trailing dot. -/
def numberingTail : Bool → List Char → Bool
  | _, [] => true
  | true, c :: rest =>
    if c = '.' then numberingTail false rest
    else pyDigit c && numberingTail true rest
  | false, c :: rest => pyDigit c && numberingTail true rest

/-- Does `m` match `\d+(?:\.\d+)*\.?` in full? -/
def matchesNumbering (m : List Char) : Bool :=
  match m with
  | [] => false
  | c :: rest => pyDigit c && numberingTail true rest

/-- Python `str.rstrip('.')`. -/
def dropTrailingDots (l : List Char) : List Char :=
  (l.reverse.dropWhile (fun c => c = '.')).reverse

/-- `_extract_numbering` (lines 407-421): the longest prefix matching
`\d+(?:\.\d+)*\.?` that is followed by a whitespace character, with trailing
dots stripped; `""` when the pattern does not match. -/
def extractNumbering (text : String) : String :=
  match ((List.range (text.data.length + 1)).reverse).find? (fun p =>
      matchesNumbering (text.data.take p) &&
      (match text.data.get? p with
       | some c => pySpace c
       | none => false)) with
  | some p => ⟨dropTrailingDots (text.data.take p)⟩
  | none => ""

/-- Number of `'.'` characters in a string (`numbering.count('.')`). -/
def countDots (s : String) : Nat := (s.data.filter (fun c => c = '.')).length

/-- `_determine_heading_level` (lines 423-446). -/
def determineHeadingLevel (sectionPrefixes : List String)
    (text : String) (numbering : String) : Nat :=
  if numbering.data.isEmpty = false then min (countDots numbering + 1) 6
  else if sectionPrefixes.any (fun pre => startsWithLower text pre) then 1
  else 1

/-- `_is_section_heading` (lines 391-405). -/
def isSectionHeading (nonHeadingPrefixes : List String) (text : String) : Bool :=
  !(nonHeadingPrefixes.any fun pre => startsWithLower text pre)

/-- Per-line processing of `_parse_toc_entries` (lines 344-387); `none` when
the line is skipped. -/
def parseTocLine (tocKeywords nonHeadingPrefixes sectionPrefixes : List String)
    (rawLine : List Char) : Option TocEntry :=
  let line : List Char := pyStrip rawLine
  if line.isEmpty then none
  else if tocKeywords.any (fun kw => line.map pyLower = kw.data.map pyLower) then none
  else
    match trailingPageNumber line with
    | none => none
    | some targetPage =>
      let clean1 := match sub1Start line with
        | some p => line.take p
        | none => line
      let clean2 := match sub2Start clean1 with
        | some p => clean1.take p
        | none => clean1
      let clean := pyStrip clean2
      if clean.isEmpty then none
      else if clean.all pyDigit then none
      else
        let cleanS : String := ⟨clean⟩
        let numbering := extractNumbering cleanS
        some
          { raw_text := ⟨line⟩
            clean_text := cleanS
            heading_level := determineHeadingLevel sectionPrefixes cleanS numbering
            page_number := targetPage
            is_section := isSectionHeading nonHeadingPrefixes cleanS
            numbering := numbering }

/-- `_parse_toc_entries` (lines 324-389) over the texts of the TOC page
range, in page-then-line order. -/
def parseTocEntries (tocKeywords nonHeadingPrefixes sectionPrefixes : List String)
    (pageTexts : List String) : List TocEntry :=
  pageTexts.flatMap fun t =>
    (splitLines t.data).filterMap fun ln =>
      parseTocLine tocKeywords nonHeadingPrefixes sectionPrefixes ln

/-! ## TOC locating (`_find_toc_pages`) -/

/-- `pat in hay` on character lists (Python substring containment). -/
def listIsInfixOf (pat : List Char) : List Char → Bool
  | [] => pat.isEmpty
  | c :: cs => pat.isPrefixOf (c :: cs) || listIsInfixOf pat cs

/-- Case-insensitive substring test: Python `kw.lower() in text.lower()`. -/
def containsLower (kw text : String) : Bool :=
  listIsInfixOf (kw.data.map pyLower) (text.data.map pyLower)

/-- Does the text contain a run of four or more periods
(`re.compile(r'\.{4,}').search(text)`)? -/
def hasDotRun (text : String) : Bool :=
  listIsInfixOf ['.', '.', '.', '.'] text.data

/-- The fallback of `_find_toc_pages` (lines 311-320): `last_dot_page`, the
last page in `[tocStart, maxSearch)` whose text has a dot-leader run,
starting from `tocStart` itself. -/
def lastDotPage (pages : List String) (tocStart maxSearch : Nat) : Nat :=
  (List.range' tocStart (maxSearch - tocStart)).foldl
    (fun last p => if hasDotRun (pages.getD p "") then p else last) tocStart

/-- The scan loop of `_find_toc_pages` (lines 292-322) over the remaining
page indices, with the current `toc_start` state.  On the iteration that
finds a keyword the source's end-of-TOC test `page_num > toc_start` is
false, so that iteration just latches `toc_start` and continues. -/
def findTocLoop (pages tocKeywords : List String) (maxSearch : Nat) :
    List Nat → Option Nat → Option Nat × Option Nat
  | [], some s => (some s, some (lastDotPage pages s maxSearch))
  | [], none => (none, none)
  | pageNum :: rest, some s =>
    if pageNum > s ∧ hasDotRun (pages.getD pageNum "") = false
    then (some s, some (pageNum - 1))
    else findTocLoop pages tocKeywords maxSearch rest (some s)
  | pageNum :: rest, none =>
    if tocKeywords.any (fun kw => containsLower kw (pages.getD pageNum "")) then
      findTocLoop pages tocKeywords maxSearch rest (some pageNum)
    else findTocLoop pages tocKeywords maxSearch rest none

/-- `_find_toc_pages` (lines 275-322): `pages` is the list of page texts
delivered by the document access layer;
`maxSearch = min(toc_max_search_pages, len(doc))`. -/
def findTocPages (tocKeywords : List String) (tocMaxSearchPages : Nat)
    (pages : List String) : Option Nat × Option Nat :=
  let maxSearch := min tocMaxSearchPages pages.length
  findTocLoop pages tocKeywords maxSearch (List.range maxSearch) none

/-- The first page within the scan limit containing a marker keyword (the
spec's characterization of `toc_start`). -/
def firstMarkerPage (tocKeywords : List String) (pages : List String)
    (maxSearch : Nat) : Option Nat :=
  (List.range maxSearch).find? fun p =>
    tocKeywords.any fun kw => containsLower kw (pages.getD p "")

/-- Follows the spec's words for claim C6's `toc_end`: one less than the
first later page within the limit containing no dot-leader run; otherwise
the last page within the limit (from `toc_start` on) that did contain a
dot-leader run — `none` when no scanned page contains one, a case the claim
leaves undefined. -/
def tocEndSpec (pages : List String) (maxSearch tocStart : Nat) : Option Nat :=
  match (List.range' (tocStart + 1) (maxSearch - (tocStart + 1))).find?
      (fun p => !hasDotRun (pages.getD p "")) with
  | some p => some (p - 1)
  | none =>
    ((List.range' tocStart (maxSearch - tocStart)).filter
      (fun p => hasDotRun (pages.getD p ""))).getLast?

/-! ## TOC-body matching (`_match_toc_to_body`)

`difflib.SequenceMatcher(None, a, b).ratio()` is abstracted as a parameter
`ratio : String → String → Rat`; the source's thresholds (floats) are exact
rationals. -/

/-- The four matching tunables (config `matching`, lines 515-519). -/
structure MatchingConfig where
  fuzzy_threshold : Rat := 80 / 100
  suggestion_threshold : Rat := 50 / 100
  page_search_window : Int := 2
  max_suggestions : Nat := 3

/-- Python `range(a, b)` over integers. -/
def intRange (a b : Int) : List Int :=
  (List.range (b - a).toNat).map fun (i : Nat) => a + (i : Int)

/-- Python `s.startswith(pre)`. -/
def pyStartsWith (s pre : String) : Bool := pre.data.isPrefixOf s.data

/-- `max(pages_data.keys())` (line 538); only used on nonempty input. -/
def maxKey : List (Int × List Block) → Int
  | [] => 0
  | x :: xs => (xs.map Prod.fst).foldl max x.fst

/-- Python `round` to the nearest integer, halves to even. -/
def roundHalfEven (z : Rat) : Int :=
  let fl := z.floor
  let fr := z - fl
  if fr < 1 / 2 then fl
  else if 1 / 2 < fr then fl + 1
  else if fl % 2 = 0 then fl else fl + 1

/-- Python `round(x, 2)` on exact rationals. -/
def pyRound2 (q : Rat) : Rat := (roundHalfEven (q * 100) : Rat) / 100

/-- Per-entry scan state: the `MatchResult` under construction, the best
fuzzy similarity so far (`best_similarity`), the pending suggestions, and
the shared `matched_blocks` set. -/
structure ScanState where
  mr : MatchResult
  best : Rat
  suggestions : List Suggestion
  claimed : List (Int × Nat)

/-- The fuzzy-matching step for one block (lines 578-596): record a new best
match above the fuzzy threshold, or append a suggestion at or above the
suggestion threshold. -/
def fuzzyStep (cfg : MatchingConfig) (sim : Rat) (b : Block) (pg : Int)
    (st : ScanState) : ScanState :=
  if sim ≥ cfg.fuzzy_threshold ∧ sim > st.best then
    { st with
      best := sim,
      mr := { st.mr with
        matched := true,
        matched_text := b.text,
        page_num := pg,
        similarity := sim } }
  else if sim ≥ cfg.suggestion_threshold then
    { st with suggestions := st.suggestions ++ [⟨b.text, pg, pyRound2 sim⟩] }
  else st

/-- The inner block loop of `_match_toc_to_body` (lines 549-596), returning
at the `break` of an exact-prefix or multi-line-concatenation hit. -/
def scanBlocks (ratio : String → String → Rat) (cfg : MatchingConfig)
    (tocN : String) (pg : Int) : Nat → List Block → ScanState → ScanState
  | _, [], st => st
  | idx, b :: rest, st =>
    if (pg, idx) ∈ st.claimed then
      scanBlocks ratio cfg tocN pg (idx + 1) rest st
    else
      let bn := normalizeText b.text
      if pyStartsWith bn tocN then
        { st with
          mr := { st.mr with
            matched := true,
            matched_text := b.text,
            page_num := pg,
            similarity := 1 },
          claimed := (pg, idx) :: st.claimed }
      else
        match rest with
        | nb :: _ =>
          if pyStartsWith (bn ++ " " ++ normalizeText nb.text) tocN then
            { st with
              mr := { st.mr with
                matched := true,
                matched_text := b.text ++ " " ++ nb.text,
                page_num := pg,
                similarity := 1 },
              claimed := (pg, idx + 1) :: (pg, idx) :: st.claimed }
          else
            scanBlocks ratio cfg tocN pg (idx + 1) rest
              (fuzzyStep cfg (ratio tocN bn) b pg st)
        | [] =>
          scanBlocks ratio cfg tocN pg (idx + 1) rest
            (fuzzyStep cfg (ratio tocN bn) b pg st)

/-- The page loop of `_match_toc_to_body` (lines 545-599): pages absent from
`pages_data` are skipped; after a page, the loop stops once the entry is
matched with similarity ≥ 1.0. -/
def scanPages (ratio : String → String → Rat) (cfg : MatchingConfig)
    (tocN : String) (pd : List (Int × List Block)) :
    List Int → ScanState → ScanState
  | [], st => st
  | pg :: rest, st =>
    match pd.lookup pg with
    | none => scanPages ratio cfg tocN pd rest st
    | some blocks =>
      let st' := scanBlocks ratio cfg tocN pg 0 blocks st
      if st'.mr.matched = true ∧ st'.mr.similarity ≥ 1 then st'
      else scanPages ratio cfg tocN pd rest st'

/-- After a fuzzy match, claim on each window page the first unclaimed block
whose text equals the matched text (lines 602-610; the `break` leaves only
the inner loop, so every page of the window may contribute one key). -/
def registerFuzzy (pd : List (Int × List Block)) (pages : List Int)
    (mtext : String) (claimed : List (Int × Nat)) : List (Int × Nat) :=
  pages.foldl
    (fun cl pg =>
      match pd.lookup pg with
      | none => cl
      | some blocks =>
        match blocks.enum.find?
            (fun bi => bi.2.text == mtext && !(cl.contains (pg, bi.1))) with
        | some bi => (pg, bi.1) :: cl
        | none => cl)
    claimed

/-- Stable insertion, descending by similarity, ties keeping earlier entries
first. -/
def insertDesc (x : Suggestion) : List Suggestion → List Suggestion
  | [] => [x]
  | y :: ys =>
    if x.similarity > y.similarity then x :: y :: ys else y :: insertDesc x ys

/-- Python `suggestions.sort(key=similarity, reverse=True)`: a stable sort,
descending by similarity. -/
def sortSuggestions (l : List Suggestion) : List Suggestion :=
  l.foldl (fun acc x => insertDesc x acc) []

/-- Processing of one TOC entry (lines 525-617): skip non-sections, scan the
clamped page window, then claim the fuzzy match's block(s) and, on failure,
sort and truncate the suggestions. -/
def processEntry (ratio : String → String → Rat) (cfg : MatchingConfig)
    (pd : List (Int × List Block)) (bodyStart : Int)
    (claimed : List (Int × Nat)) (entry : TocEntry) :
    MatchResult × List (Int × Nat) :=
  let mr0 : MatchResult := { toc_entry := entry, matched := false }
  if entry.is_section = false then (mr0, claimed)
  else
    let estimatedPage : Int := bodyStart + (entry.page_number : Int) - 1
    let searchStart := max bodyStart (estimatedPage - cfg.page_search_window)
    let searchEnd :=
      min (if pd.isEmpty then bodyStart else maxKey pd + 1)
        (estimatedPage + cfg.page_search_window + 1)
    let pages := intRange searchStart searchEnd
    let st := scanPages ratio cfg (normalizeText entry.clean_text) pd pages
      { mr := mr0, best := 0, suggestions := [], claimed := claimed }
    let claimed' :=
      if st.mr.matched = true ∧ st.mr.similarity < 1 then
        registerFuzzy pd pages st.mr.matched_text st.claimed
      else st.claimed
    let mrOut :=
      if st.mr.matched = false then
        { st.mr with
          suggestions := (sortSuggestions st.suggestions).take cfg.max_suggestions }
      else st.mr
    (mrOut, claimed')

/-- The entry loop of `_match_toc_to_body`, threading `matched_blocks`. -/
def matchAux (ratio : String → String → Rat) (cfg : MatchingConfig)
    (pd : List (Int × List Block)) (bodyStart : Int) :
    List TocEntry → List (Int × Nat) → List MatchResult × List (Int × Nat)
  | [], claimed => ([], claimed)
  | e :: es, claimed =>
    let r1 := processEntry ratio cfg pd bodyStart claimed e
    let r2 := matchAux ratio cfg pd bodyStart es r1.2
    (r1.1 :: r2.1, r2.2)

/-- `_match_toc_to_body` (lines 503-619): one `MatchResult` per entry, in
TOC order, starting from an empty `matched_blocks` set. -/
def matchTocToBody (ratio : String → String → Rat) (cfg : MatchingConfig)
    (entries : List TocEntry) (pd : List (Int × List Block))
    (bodyStart : Int) : List MatchResult :=
  (matchAux ratio cfg pd bodyStart entries []).1

/-- The `matched_blocks` set as it stands when each entry of the loop starts
to be processed: the i-th element is the claimed set seen by the i-th
entry. -/
def claimedStates (ratio : String → String → Rat) (cfg : MatchingConfig)
    (pd : List (Int × List Block)) (bodyStart : Int) :
    List TocEntry → List (Int × Nat) → List (List (Int × Nat))
  | [], _ => []
  | e :: es, claimed =>
    claimed :: claimedStates ratio cfg pd bodyStart es
      (processEntry ratio cfg pd bodyStart claimed e).2

/-- The shape of a fuzzy (similarity < 1) candidate recorded during a scan:
it quotes the text of a block, unclaimed in `c`, on one of the window's
pages. -/
def FuzzyForm (pd : List (Int × List Block)) (pagesAll : List Int)
    (c : List (Int × Nat)) (m : MatchResult) : Prop :=
  m.matched = true ∧ m.similarity < 1 ∧
  ∃ pg blocks j b, pg ∈ pagesAll ∧ pd.lookup pg = some blocks ∧
    blocks.get? j = some b ∧ (pg, j) ∉ c ∧
    m.matched_text = b.text ∧ m.page_num = pg

/-- No two adjacent characters are both whitespace. -/
def NoAdjSpace (l : List Char) : Prop :=
  List.Chain' (fun a b => ¬(pySpace a = true ∧ pySpace b = true)) l

/-- The shape of `collapseWs` output: every whitespace character is a plain
space and no two whitespace characters are adjacent. -/
def WsOk (l : List Char) : Prop :=
  (∀ c ∈ l, pySpace c = true → c = ' ') ∧ NoAdjSpace l

/-! ## The `convert` driver (`convert`, lines 96-213)

The document accesses (PyMuPDF page texts, extracted blocks, extracted
images) are inputs of the embedding: `pageTexts` is the list of page texts,
`pd` the per-page body blocks from `_extract_pages_data`, `imageMap` the
`(page, index) → path` map from `_extract_images`.  The configuration slice
is `extract_tables = False` (as for `renderBlock`), so the table branch adds
no parts. -/

/-- Ascending insertion used to model Python `sorted` on page keys. -/
def insertAsc (x : Int) : List Int → List Int
  | [] => [x]
  | y :: ys => if x ≤ y then x :: y :: ys else y :: insertAsc x ys

/-- Python `sorted(pages_data.keys())`. -/
def sortAsc (l : List Int) : List Int :=
  l.foldl (fun acc x => insertAsc x acc) []

/-- `_generate_html` (lines 638-727) with `extract_tables = False`: for each
page in ascending key order, the page's image parts then its rendered text
blocks. -/
def generateHtmlParts (pd : List (Int × List Block)) (mrs : List MatchResult)
    (imageMap : List ((Int × Nat) × String)) : List String :=
  let hm := buildHeadingMap mrs
  (sortAsc (pd.map Prod.fst)).flatMap fun pg =>
    ((imageMap.filter (fun kv => kv.1.1 == pg)).map fun kv =>
      "<p><img src=\"" ++ escape_html kv.2 ++ "\" alt=\"\"></p>") ++
    (match pd.lookup pg with
     | none => []
     | some blocks => blocks.filterMap (renderBlock hm))

/-- The outputs of the `try` body of `convert` that the spec talks about. -/
structure ConvertOutput where
  tocEntries : List TocEntry
  matchResults : List MatchResult
  warnings : List String
  htmlParts : List String
  bodyStart : Int
  success : Bool

/-- The `try` body of `convert` (lines 136-207): locate the TOC, parse its
entries (only when a TOC was found), emit the no-TOC warning otherwise,
derive `body_start`, match, and generate the HTML parts; the body ends with
`result.success = True`.  When `toc_start` is found `toc_end` is always set
too, so the `(some, none)` shape is unreachable and parses no entries. -/
def convertBody (tocKeywords nonHeadingPrefixes sectionPrefixes : List String)
    (tocMaxSearchPages : Nat) (ratio : String → String → Rat)
    (cfg : MatchingConfig) (pageTexts : List String)
    (pd : List (Int × List Block)) (imageMap : List ((Int × Nat) × String)) :
    ConvertOutput :=
  let tse := findTocPages tocKeywords tocMaxSearchPages pageTexts
  let tocEntries :=
    match tse with
    | (some s, some e) =>
      parseTocEntries tocKeywords nonHeadingPrefixes sectionPrefixes
        ((List.range' s (e + 1 - s)).map (fun p => pageTexts.getD p ""))
    | _ => []
  let warnings :=
    match tse.1 with
    | none => ["TOC를 찾을 수 없어 제목 구조를 판별하지 못했습니다."]
    | some _ => []
  let bodyStart : Int :=
    match tse.2 with
    | some e => (e : Int) + 1
    | none => 0
  let matchResults :=
    if tocEntries.isEmpty then []
    else matchTocToBody ratio cfg tocEntries pd bodyStart
  { tocEntries := tocEntries
    matchResults := matchResults
    warnings := warnings
    htmlParts := generateHtmlParts pd matchResults imageMap
    bodyStart := bodyStart
    success := true }

/-- `utils.ConversionResult` (utils.py lines 261-291), the fields `convert`
writes before and after the `try` block. -/
structure ConversionResult where
  input_path : String
  output_path : Option String := none
  success : Bool := false
  error_message : Option String := none
  warnings : List String := []
  deriving DecidableEq

/-- The input-validation prelude and exception catch-all of `convert`
(lines 108-124 and 209-213): `pathExists` stands for
`input_path.exists()`, `sfx` for `input_path.suffix`, and `body` for
everything inside the `try` block — `Except.error e` being a raised
exception, caught and turned into `error_message = str(e)`. -/
def convert (inputPath : String) (pathExists : Bool) (sfx : String)
    (body : Except String ConversionResult) : ConversionResult :=
  let result : ConversionResult := { input_path := inputPath }
  if pathExists = false then
    { result with
      error_message := some ("파일을 찾을 수 없습니다: " ++ inputPath) }
  else if (⟨sfx.data.map pyLower⟩ : String) ≠ ".pdf" then
    { result with
      error_message := some ("지원하지 않는 파일 형식입니다: " ++ sfx) }
  else
    match body with
    | Except.ok r => r
    | Except.error e => { result with error_message := some e }

/-! ## Facts about the `_normalize_text` building blocks -/

theorem pyLower_idem (c : Char) : pyLower (pyLower c) = pyLower c := by
  show Char.toLower (Char.toLower c) = Char.toLower c
  unfold Char.toLower
  by_cases h : c.toNat ≥ 65 ∧ c.toNat ≤ 90
  · rw [if_pos h]
    have hv : (c.toNat + 32).isValidChar := Or.inl (by omega)
    have ht : (Char.ofNat (c.toNat + 32)).toNat = c.toNat + 32 := by
      rw [Char.ofNat, dif_pos hv]
      simp [Char.ofNatAux, Char.toNat, UInt32.toNat]
    rw [if_neg (fun hc => by rw [ht] at hc; omega)]
  · rw [if_neg h, if_neg h]

theorem mem_collapseWsAux {c : Char} :
    ∀ (b : Bool) (l : List Char), c ∈ collapseWsAux b l →
      c = ' ' ∨ (c ∈ l ∧ pySpace c = false)
  | _, [], h => by simp [collapseWsAux] at h
  | b, a :: as, h => by
    by_cases ha : pySpace a = true
    · cases b with
      | true =>
        simp only [collapseWsAux, ha, if_true] at h
        rcases mem_collapseWsAux true as h with h' | ⟨h1, h2⟩
        · exact Or.inl h'
        · exact Or.inr ⟨List.mem_cons_of_mem a h1, h2⟩
      | false =>
        simp only [collapseWsAux, ha, if_true] at h
        rcases List.mem_cons.mp h with h' | h'
        · exact Or.inl h'
        · rcases mem_collapseWsAux true as h' with h'' | ⟨h1, h2⟩
          · exact Or.inl h''
          · exact Or.inr ⟨List.mem_cons_of_mem a h1, h2⟩
    · simp only [collapseWsAux, ha, if_false] at h
      rcases List.mem_cons.mp h with h' | h'
      · subst h'
        exact Or.inr ⟨List.mem_cons_self _ _, by simpa using ha⟩
      · rcases mem_collapseWsAux false as h' with h'' | ⟨h1, h2⟩
        · exact Or.inl h''
        · exact Or.inr ⟨List.mem_cons_of_mem a h1, h2⟩

theorem collapseWsAux_false_cons_space (a : Char) (as : List Char)
    (ha : pySpace a = true) :
    collapseWsAux false (a :: as) = ' ' :: collapseWsAux true as := by
  simp [collapseWsAux, ha]

theorem collapseWsAux_false_cons (a : Char) (as : List Char)
    (ha : pySpace a = false) :
    collapseWsAux false (a :: as) = a :: collapseWsAux false as := by
  simp [collapseWsAux, ha]

theorem collapseWsAux_chain (l : List Char) :
    NoAdjSpace (collapseWsAux true l) ∧
    (∀ c, (collapseWsAux true l).head? = some c → pySpace c = false) ∧
    NoAdjSpace (collapseWsAux false l) := by
  induction l with
  | nil => refine ⟨List.chain'_nil, ?_, List.chain'_nil⟩; intro c h; simp [collapseWsAux] at h
  | cons a as ih =>
    obtain ⟨ihT, ihH, ihF⟩ := ih
    by_cases ha : pySpace a = true
    · refine ⟨?_, ?_, ?_⟩
      · simpa only [collapseWsAux, ha, if_true] using ihT
      · intro c h; exact ihH c (by simpa only [collapseWsAux, ha, if_true] using h)
      · rw [show collapseWsAux false (a :: as) = ' ' :: collapseWsAux true as from
          collapseWsAux_false_cons_space a as ha]
        refine List.chain'_cons'.mpr ⟨?_, ihT⟩
        intro y hy h'
        exact absurd h'.2 (by simp [ihH y hy])
    · have hcons : NoAdjSpace (a :: collapseWsAux false as) := by
        refine List.chain'_cons'.mpr ⟨?_, ihF⟩
        intro y _ h'
        exact ha h'.1
      refine ⟨?_, ?_, ?_⟩
      · simpa only [collapseWsAux, ha, if_false] using hcons
      · intro c h
        simp only [collapseWsAux, ha, if_false, List.head?_cons] at h
        cases h; simpa using ha
      · simpa only [collapseWsAux, ha, if_false] using hcons

theorem wsOk_collapseWs (l : List Char) : WsOk (collapseWs l) := by
  constructor
  · intro c hc hsp
    rcases mem_collapseWsAux false l hc with h | ⟨_, h⟩
    · exact h
    · rw [hsp] at h; cases h
  · exact (collapseWsAux_chain l).2.2

theorem collapseWsAux_true_of_head (a : Char) (as : List Char)
    (ha : pySpace a = false) :
    collapseWsAux true (a :: as) = a :: collapseWsAux false as := by
  simp [collapseWsAux, ha]

theorem collapseWs_of_wsOk : ∀ l : List Char, WsOk l → collapseWs l = l := by
  intro l
  induction l with
  | nil => intro _; rfl
  | cons a as ih =>
    intro ⟨hall, hchain⟩
    have hAs : WsOk as :=
      ⟨fun c hc => hall c (List.mem_cons_of_mem a hc), (List.chain'_cons'.mp hchain).2⟩
    have ihAs : collapseWsAux false as = as := ih hAs
    show collapseWsAux false (a :: as) = a :: as
    by_cases ha : pySpace a = true
    · have haSp : a = ' ' := hall a (List.mem_cons_self _ _) ha
      rw [collapseWsAux_false_cons_space a as ha, haSp]
      congr 1
      cases as with
      | nil => rfl
      | cons b bs =>
        have hb : pySpace b = false := by
          have := (List.chain'_cons'.mp hchain).1 b (by simp)
          by_contra hb'
          exact this ⟨ha, by simpa using hb'⟩
        rw [collapseWsAux_true_of_head b bs hb, ← collapseWsAux_false_cons b bs hb]
        exact ihAs
    · rw [collapseWsAux_false_cons a as (by simpa using ha), ihAs]

theorem dropWhile_head_not {p : Char → Bool} :
    ∀ {l : List Char} {c : Char}, (l.dropWhile p).head? = some c → p c = false
  | [], c, h => by simp [List.dropWhile] at h
  | a :: as, c, h => by
    by_cases ha : p a = true
    · exact dropWhile_head_not (l := as) (by simpa [List.dropWhile, ha] using h)
    · simp only [List.dropWhile, ha, Bool.false_eq_true, if_false, List.head?_cons] at h
      cases h; simpa using ha

theorem head?_eq_of_prefix {l₁ l₂ : List Char} {c : Char}
    (h : l₁ <+: l₂) (hc : l₁.head? = some c) : l₂.head? = some c := by
  obtain ⟨t, rfl⟩ := h
  cases l₁ with
  | nil => simp at hc
  | cons a as => simpa using hc

theorem dropWhile_eq_self_of_head {p : Char → Bool} {l : List Char}
    (h : ∀ c, l.head? = some c → p c = false) : l.dropWhile p = l := by
  cases l with
  | nil => rfl
  | cons a as => simp [List.dropWhile, h a rfl]

theorem pyStrip_idem (l : List Char) : pyStrip (pyStrip l) = pyStrip l := by
  set A := l.dropWhile pySpace with hA
  set B := A.reverse.dropWhile pySpace with hB
  have hyrev : (B.reverse).reverse = B := by simp
  have h1 : B.reverse.dropWhile pySpace = B.reverse := by
    apply dropWhile_eq_self_of_head
    intro c hc
    have hpref : B.reverse <+: A := by
      rw [show A = A.reverse.reverse by simp]
      exact List.reverse_prefix.mpr (List.dropWhile_suffix pySpace)
    have hAh : A.head? = some c := head?_eq_of_prefix hpref hc
    rw [hA] at hAh
    exact dropWhile_head_not hAh
  show ((B.reverse.dropWhile pySpace).reverse.dropWhile pySpace).reverse = B.reverse
  rw [h1, hyrev]
  rw [dropWhile_eq_self_of_head (fun c hc => dropWhile_head_not (hB ▸ hc))]

theorem getLast?_of_suffix {l₁ l₂ : List Char} {c : Char}
    (h : l₁ <:+ l₂) (hc : l₁.getLast? = some c) : l₂.getLast? = some c := by
  obtain ⟨t, rfl⟩ := h
  rw [List.getLast?_append, hc]
  rfl

theorem spacesThenDigits_last {l : List Char} (h : spacesThenDigits l = true) :
    ∃ c, l.getLast? = some c ∧ pyDigit c = true := by
  simp only [spacesThenDigits, Bool.and_eq_true, Bool.not_eq_true'] at h
  obtain ⟨hne, hall⟩ := h
  set r := l.dropWhile pySpace with hr
  have hrne : r ≠ [] := by
    intro h'; rw [h'] at hne; simp [List.isEmpty] at hne
  obtain ⟨c, hc⟩ := Option.isSome_iff_exists.mp (List.getLast?_isSome.mpr hrne)
  refine ⟨c, getLast?_of_suffix (hr ▸ List.dropWhile_suffix pySpace) hc, ?_⟩
  exact (List.all_eq_true.mp hall) c (List.mem_of_mem_getLast? hc)

theorem footnoteStart_eq_none {l : List Char}
    (h : ∀ c, l.getLast? = some c → pyDigit c = false) :
    footnoteStart l = none := by
  rw [footnoteStart, List.find?_eq_none]
  intro p hp
  simp only [Bool.and_eq_true, not_and, decide_eq_true_eq, Bool.not_eq_true']
  intro _
  cases hstd : spacesThenDigits (l.drop p) with
  | false => simp
  | true =>
    exfalso
    obtain ⟨c, hc, hdig⟩ := spacesThenDigits_last hstd
    have := getLast?_of_suffix (List.drop_suffix p l) hc
    rw [h c this] at hdig
    cases hdig

theorem wsOk_reverse {l : List Char} (h : WsOk l) : WsOk l.reverse := by
  refine ⟨fun c hc => h.1 c (List.mem_reverse.mp hc), ?_⟩
  exact List.chain'_reverse.mpr (h.2.imp fun a b hab h' => hab ⟨h'.2, h'.1⟩)

theorem wsOk_dropWhile {p : Char → Bool} {l : List Char} (h : WsOk l) :
    WsOk (l.dropWhile p) := by
  refine ⟨fun c hc => h.1 c ((List.dropWhile_suffix p).sublist.mem hc), ?_⟩
  exact h.2.suffix (List.dropWhile_suffix p)

theorem wsOk_take {n : ℕ} {l : List Char} (h : WsOk l) : WsOk (l.take n) := by
  exact ⟨fun c hc => h.1 c (List.mem_of_mem_take hc), h.2.take n⟩

theorem wsOk_pyStrip {l : List Char} (h : WsOk l) : WsOk (pyStrip l) :=
  wsOk_reverse (wsOk_dropWhile (wsOk_reverse (wsOk_dropWhile h)))

theorem wsOk_stripTrailingFootnote {l : List Char} (h : WsOk l) :
    WsOk (stripTrailingFootnote l) := by
  unfold stripTrailingFootnote
  cases footnoteStart l with
  | none => exact h
  | some p => exact wsOk_take h

theorem wsOk_normalizeList (l : List Char) : WsOk (normalizeList l) :=
  wsOk_pyStrip (wsOk_stripTrailingFootnote (wsOk_collapseWs _))

theorem mem_normalizeList {c : Char} {l : List Char} (h : c ∈ normalizeList l) :
    c = ' ' ∨ c ∈ l.map pyLower := by
  have h1 : c ∈ stripTrailingFootnote (collapseWs (l.map pyLower)) := by
    have h' := (List.dropWhile_suffix pySpace).sublist.mem (List.mem_reverse.mp h)
    have h'' := (List.dropWhile_suffix pySpace).sublist.mem (List.mem_reverse.mp h')
    exact h''
  have h2 : c ∈ collapseWs (l.map pyLower) := by
    unfold stripTrailingFootnote at h1
    cases hfs : footnoteStart (collapseWs (List.map pyLower l)) with
    | none => rw [hfs] at h1; exact h1
    | some p => rw [hfs] at h1; exact List.mem_of_mem_take h1
  rcases mem_collapseWsAux false _ h2 with h' | ⟨h', _⟩
  · exact Or.inl h'
  · exact Or.inr h'

theorem map_fix_eq_self {f : Char → Char} :
    ∀ (m : List Char), (∀ c ∈ m, f c = c) → m.map f = m
  | [], _ => rfl
  | a :: as, h => by
    rw [List.map_cons, h a (List.mem_cons_self _ _),
      map_fix_eq_self as fun c hc => h c (List.mem_cons_of_mem a hc)]

theorem map_pyLower_normalizeList (l : List Char) :
    (normalizeList l).map pyLower = normalizeList l := by
  apply map_fix_eq_self
  intro c hc
  rcases mem_normalizeList hc with h | h
  · rw [h]; decide
  · obtain ⟨a, _, rfl⟩ := List.mem_map.mp h
    exact pyLower_idem a

theorem normalizeList_idem (l : List Char)
    (h : ∀ c, (normalizeList l).getLast? = some c → pyDigit c = false) :
    normalizeList (normalizeList l) = normalizeList l := by
  set y := normalizeList l with hy
  show pyStrip (stripTrailingFootnote (collapseWs (y.map pyLower))) = y
  rw [show y.map pyLower = y from map_pyLower_normalizeList l]
  rw [collapseWs_of_wsOk y (wsOk_normalizeList l)]
  have hfs : footnoteStart y = none := footnoteStart_eq_none h
  rw [show stripTrailingFootnote y = y by unfold stripTrailingFootnote; rw [hfs]]
  exact pyStrip_idem (stripTrailingFootnote (collapseWs (l.map pyLower)))

/-- C2 counterexample: `_normalize_text` is not idempotent.  On
`"abc 12 34"` the first pass strips only the trailing `"34"` (the lookbehind
`(?<=\D)` blocks a match that would begin after the digit `2`), giving
`"abc 12"`; a second pass then strips `" 12"` as well, giving `"abc"`. -/
theorem C2_counterexample :
    normalizeText (normalizeText "abc 12 34") ≠ normalizeText "abc 12 34" := by
  decide

/-- C2 (amended): `_normalize_text` is idempotent on every input whose
normalized form does not end in an ASCII digit.  (A second application can
strip a further trailing number otherwise, as the counterexample shows.) -/
theorem C2_theorem (s : String) (h : endsInDigit (normalizeText s) = false) :
    normalizeText (normalizeText s) = normalizeText s := by
  have hl : ∀ c, (normalizeList s.data).getLast? = some c → pyDigit c = false := by
    intro c hc
    unfold endsInDigit at h
    rw [show (normalizeText s).data = normalizeList s.data from rfl, hc] at h
    exact h
  show (⟨normalizeList (normalizeText s).data⟩ : String) = normalizeText s
  rw [show (normalizeText s).data = normalizeList s.data from rfl,
    normalizeList_idem s.data hl]
  rfl

/-- C2 witness: the amended idempotence theorem applied to `"Overview 3"`,
whose normalized form `"overview"` does not end in a digit. -/
theorem C2_witness :
    endsInDigit (normalizeText "Overview 3") = false ∧
    normalizeText (normalizeText "Overview 3") = normalizeText "Overview 3" :=
  ⟨by decide, C2_theorem "Overview 3" (by decide)⟩

/-! ## Round-trip of HTML escaping (claim C8) -/

theorem replaceChar_eq_flatMap (p : Char) (rep : List Char) :
    ∀ l : List Char,
      replaceChar p rep l = l.flatMap fun c => if c = p then rep else [c]
  | [] => rfl
  | c :: cs => by
    simp only [replaceChar, List.flatMap_cons, replaceChar_eq_flatMap p rep cs]
    by_cases h : c = p <;> simp [h]

theorem escapeHtmlList_eq_flatMap (l : List Char) :
    escapeHtmlList l = l.flatMap escChar := by
  unfold escapeHtmlList
  rw [replaceChar_eq_flatMap, replaceChar_eq_flatMap, replaceChar_eq_flatMap,
    replaceChar_eq_flatMap, replaceChar_eq_flatMap,
    List.flatMap_assoc, List.flatMap_assoc, List.flatMap_assoc, List.flatMap_assoc]
  apply List.flatMap_congr  -- may not exist; fallback below
  intro c _
  by_cases h1 : c = '&'
  · subst h1; rfl
  by_cases h2 : c = '<'
  · subst h2; rfl
  by_cases h3 : c = '>'
  · subst h3; rfl
  by_cases h4 : c = '"'
  · subst h4; rfl
  by_cases h5 : c = '\''
  · subst h5; rfl
  simp [escChar, h1, h2, h3, h4, h5]

theorem unescape_entity_amp (t : List Char) :
    unescapeHtmlList ('&' :: 'a' :: 'm' :: 'p' :: ';' :: t) =
      '&' :: unescapeHtmlList t := by
  rw [unescapeHtmlList]
  simp [List.isPrefixOf]

theorem unescape_entity_lt (t : List Char) :
    unescapeHtmlList ('&' :: 'l' :: 't' :: ';' :: t) =
      '<' :: unescapeHtmlList t := by
  rw [unescapeHtmlList]
  simp [List.isPrefixOf]

theorem unescape_entity_gt (t : List Char) :
    unescapeHtmlList ('&' :: 'g' :: 't' :: ';' :: t) =
      '>' :: unescapeHtmlList t := by
  rw [unescapeHtmlList]
  simp [List.isPrefixOf]

theorem unescape_entity_quot (t : List Char) :
    unescapeHtmlList ('&' :: 'q' :: 'u' :: 'o' :: 't' :: ';' :: t) =
      '"' :: unescapeHtmlList t := by
  rw [unescapeHtmlList]
  simp [List.isPrefixOf]

theorem unescape_entity_apos (t : List Char) :
    unescapeHtmlList ('&' :: '#' :: '3' :: '9' :: ';' :: t) =
      '\'' :: unescapeHtmlList t := by
  rw [unescapeHtmlList]
  simp [List.isPrefixOf]

theorem unescape_plain (c : Char) (t : List Char) (h : ¬ c = '&') :
    unescapeHtmlList (c :: t) = c :: unescapeHtmlList t := by
  have h' : ¬ ('&' = c) := fun hh => h hh.symm
  rw [unescapeHtmlList]
  simp [List.isPrefixOf, h']

theorem unescape_nil : unescapeHtmlList [] = [] := by
  simp [unescapeHtmlList]

theorem unescape_flatMap_escChar : ∀ l : List Char,
    unescapeHtmlList (l.flatMap escChar) = l
  | [] => by rw [List.flatMap_nil, unescape_nil]
  | c :: cs => by
    rw [List.flatMap_cons]
    by_cases h1 : c = '&'
    · subst h1
      show unescapeHtmlList ('&' :: 'a' :: 'm' :: 'p' :: ';' :: cs.flatMap escChar) = _
      rw [unescape_entity_amp, unescape_flatMap_escChar cs]
    by_cases h2 : c = '<'
    · subst h2
      show unescapeHtmlList ('&' :: 'l' :: 't' :: ';' :: cs.flatMap escChar) = _
      rw [unescape_entity_lt, unescape_flatMap_escChar cs]
    by_cases h3 : c = '>'
    · subst h3
      show unescapeHtmlList ('&' :: 'g' :: 't' :: ';' :: cs.flatMap escChar) = _
      rw [unescape_entity_gt, unescape_flatMap_escChar cs]
    by_cases h4 : c = '"'
    · subst h4
      show unescapeHtmlList ('&' :: 'q' :: 'u' :: 'o' :: 't' :: ';' :: cs.flatMap escChar) = _
      rw [unescape_entity_quot, unescape_flatMap_escChar cs]
    by_cases h5 : c = '\''
    · subst h5
      show unescapeHtmlList ('&' :: '#' :: '3' :: '9' :: ';' :: cs.flatMap escChar) = _
      rw [unescape_entity_apos, unescape_flatMap_escChar cs]
    · rw [show escChar c = [c] by simp [escChar, h1, h2, h3, h4, h5]]
      rw [List.singleton_append, unescape_plain c _ h1, unescape_flatMap_escChar cs]

/-- C8: decoding the five HTML entities inverts `escape_html` on every
string; in particular the text of a rendered heading, with its tags removed
and entities decoded, is the original fragment text.  (`unescapeHtml` is
modelled from the spec, the source defining no decoder.) -/
theorem C8_theorem (s : String) : unescapeHtml (escape_html s) = s := by
  cases s with
  | mk l =>
    cases l with
    | nil =>
      show (⟨unescapeHtmlList ([] : List Char)⟩ : String) = ⟨[]⟩
      rw [unescape_nil]
    | cons c cs =>
      have hne : ((c :: cs).isEmpty : Bool) = false := rfl
      show unescapeHtml (if (c :: cs).isEmpty then "" else ⟨escapeHtmlList (c :: cs)⟩) = _
      rw [hne]
      show (⟨unescapeHtmlList (escapeHtmlList (c :: cs))⟩ : String) = ⟨c :: cs⟩
      rw [escapeHtmlList_eq_flatMap, unescape_flatMap_escChar]

/-! ## Paragraph rendering with both inline flags (claim C3) -/

/-- C3 counterexample: a non-heading fragment with both flags set renders
with `<em>` as the outer marker (line 718 wraps `<strong>` first, line 720
then wraps `<em>` around it), so the emitted HTML is
`<p><em><strong>x</strong></em></p>`, not `<p><strong><em>x</em></strong></p>`
as claimed. -/
theorem C3_counterexample :
    renderBlock [] ⟨"x", true, true⟩ = some "<p><em><strong>x</strong></em></p>" ∧
    ("<p><em><strong>x</strong></em></p>" : String) ≠ "<p><strong><em>x</em></strong></p>" := by
  constructor
  · decide
  · decide

/-- C3 (amended): a non-heading, non-skipped fragment with both `is_bold` and
`is_italic` set is rendered as a paragraph with italic as the outer marker
and bold nested inside: `<p><em><strong>text</strong></em></p>`. -/
theorem C3_theorem (hm : List (String × TocEntry)) (b : Block)
    (hb : b.is_bold = true) (hi : b.is_italic = true)
    (hne : (pyStrip b.text.data).isEmpty = false)
    (hnd : (pyStrip b.text.data).all pyDigit = false)
    (hh : dictLookup hm (normalizeText b.text) = none) :
    renderBlock hm b =
      some ("<p>" ++ ("<em>" ++ ("<strong>" ++ escape_html b.text ++ "</strong>")
        ++ "</em>") ++ "</p>") := by
  simp [renderBlock, hne, hnd, hh, hb, hi]

/-- C3 witness: the amended rendering theorem at a concrete block. -/
theorem C3_witness :
    renderBlock [] ⟨"a & b", true, true⟩ =
      some ("<p>" ++ ("<em>" ++ ("<strong>" ++ escape_html "a & b" ++ "</strong>")
        ++ "</em>") ++ "</p>") :=
  C3_theorem [] ⟨"a & b", true, true⟩ rfl rfl (by decide) (by decide) (by decide)

/-! ## Heading levels from numbering depth (claim C7) -/

theorem string_ne_empty_data {s : String} (h : s ≠ "") : s.data.isEmpty = false := by
  cases s with
  | mk l =>
    cases l with
    | nil => exact absurd rfl h
    | cons a as => rfl

/-- C7: every TOC entry produced by the parser with nonempty `numbering` has
`heading_level = min(count of dots in numbering + 1, 6)`. -/
theorem C7_theorem (tocKeywords nonHeadingPrefixes sectionPrefixes : List String)
    (pageTexts : List String) (e : TocEntry)
    (he : e ∈ parseTocEntries tocKeywords nonHeadingPrefixes sectionPrefixes pageTexts)
    (hn : e.numbering ≠ "") :
    e.heading_level = min (countDots e.numbering + 1) 6 := by
  obtain ⟨t, _, hline⟩ := List.mem_flatMap.mp he
  obtain ⟨ln, _, hsome⟩ := List.mem_filterMap.mp hline
  simp only [parseTocLine] at hsome
  split at hsome
  · exact Option.noConfusion hsome
  split at hsome
  · exact Option.noConfusion hsome
  split at hsome
  · exact Option.noConfusion hsome
  next targetPage _ =>
    split at hsome
    · exact Option.noConfusion hsome
    split at hsome
    · exact Option.noConfusion hsome
    rw [Option.some.injEq] at hsome
    subst hsome
    simp only at hn ⊢
    rw [determineHeadingLevel, if_pos (string_ne_empty_data hn)]

/-- C7 witness: the heading-level theorem at the parsed entry of
`"3.2 System Overview ..... 14"`, whose numbering `"3.2"` has one dot. -/
theorem C7_witness :
    (⟨"3.2 System Overview ..... 14", "3.2 System Overview", 2, 14, true, "3.2"⟩ :
        TocEntry).heading_level =
      min (countDots (⟨"3.2 System Overview ..... 14", "3.2 System Overview", 2, 14,
        true, "3.2"⟩ : TocEntry).numbering + 1) 6 :=
  C7_theorem ["Contents"] ["Figure"] ["Appendix"]
    ["3.2 System Overview ..... 14"] _ (by decide) (by decide)

/-! ## TOC locator characterization (claim C6) -/

theorem getLastD_cons (a i : Nat) (t : List Nat) :
    ((a :: t).getLast?).getD i = (t.getLast?).getD a := by
  cases t with
  | nil => rfl
  | cons b t' =>
    have hs : ((b :: t').getLast?).isSome = true := List.getLast?_isSome.mpr (by simp)
    obtain ⟨x, hx⟩ := Option.isSome_iff_exists.mp hs
    rw [List.getLast?_cons_cons, hx]
    rfl

theorem foldl_lastDot (P : Nat → Bool) :
    ∀ (l : List Nat) (init : Nat),
      l.foldl (fun last p => if P p then p else last) init =
        ((l.filter P).getLast?).getD init
  | [], _ => rfl
  | a :: l, init => by
    rw [List.foldl_cons, List.filter_cons]
    by_cases h : P a = true
    · rw [if_pos h, if_pos h, foldl_lastDot P l a, getLastD_cons]
    · rw [if_neg h, if_neg h, foldl_lastDot P l init]

theorem lastDotPage_eq (pages : List String) (s maxSearch : Nat) :
    lastDotPage pages s maxSearch =
      (((List.range' s (maxSearch - s)).filter
        (fun p => hasDotRun (pages.getD p ""))).getLast?).getD s :=
  foldl_lastDot _ _ _

theorem findTocLoop_some (pages tocKeywords : List String) (maxSearch : Nat) :
    ∀ (n k s : Nat), s < k →
      findTocLoop pages tocKeywords maxSearch (List.range' k n) (some s) =
        (some s,
          some (match (List.range' k n).find?
              (fun p => !hasDotRun (pages.getD p "")) with
            | some p => p - 1
            | none => lastDotPage pages s maxSearch))
  | 0, k, s, hk => rfl
  | n + 1, k, s, hk => by
    rw [List.range'_succ]
    show (if k > s ∧ hasDotRun (pages.getD k "") = false
        then (some s, some (k - 1))
        else findTocLoop pages tocKeywords maxSearch (List.range' (k + 1) n) (some s)) = _
    by_cases hd : hasDotRun (pages.getD k "") = false
    · rw [if_pos ⟨hk, hd⟩,
        List.find?_cons_of_pos _ (by simp only [Bool.not_eq_true']; exact hd)]
    · rw [if_neg (fun hcontra => hd hcontra.2),
        List.find?_cons_of_neg _ (by simp only [Bool.not_eq_true']; exact hd),
        findTocLoop_some pages tocKeywords maxSearch n (k + 1) s
          (Nat.lt_succ_of_lt hk)]

theorem findTocLoop_none (pages tocKeywords : List String) (maxSearch : Nat) :
    ∀ (n k : Nat), k + n = maxSearch →
      findTocLoop pages tocKeywords maxSearch (List.range' k n) none =
        match (List.range' k n).find?
            (fun p => tocKeywords.any fun kw => containsLower kw (pages.getD p "")) with
        | none => (none, none)
        | some s =>
          (some s,
            some (match (List.range' (s + 1) (maxSearch - (s + 1))).find?
                (fun p => !hasDotRun (pages.getD p "")) with
              | some p => p - 1
              | none => lastDotPage pages s maxSearch))
  | 0, k, hk => rfl
  | n + 1, k, hk => by
    rw [List.range'_succ]
    show (if (tocKeywords.any fun kw => containsLower kw (pages.getD k "")) = true
        then findTocLoop pages tocKeywords maxSearch (List.range' (k + 1) n) (some k)
        else findTocLoop pages tocKeywords maxSearch (List.range' (k + 1) n) none) = _
    by_cases hm : (tocKeywords.any fun kw => containsLower kw (pages.getD k "")) = true
    · rw [if_pos hm,
        @List.find?_cons_of_pos Nat
          (fun p => tocKeywords.any fun kw => containsLower kw (pages.getD p "")) k
          (List.range' (k + 1) n) hm,
        findTocLoop_some pages tocKeywords maxSearch n (k + 1) k (Nat.lt_succ_self k)]
      show _ =
        (some k,
          some (match (List.range' (k + 1) (maxSearch - (k + 1))).find?
              (fun p => !hasDotRun (pages.getD p "")) with
            | some p => p - 1
            | none => lastDotPage pages k maxSearch))
      rw [show maxSearch - (k + 1) = n by omega]
    · rw [if_neg hm,
        @List.find?_cons_of_neg Nat
          (fun p => tocKeywords.any fun kw => containsLower kw (pages.getD p "")) k
          (List.range' (k + 1) n) hm,
        findTocLoop_none pages tocKeywords maxSearch n (k + 1) (by omega)]

/-- C6 counterexample: with a marker on the last (only) scanned page and no
dot-leader run anywhere, the claim's description of `toc_end` has no value
(there is no page with a dot-leader run, `tocEndSpec` is `none`), yet the
code returns `toc_end = toc_start = 0` because `last_dot_page` is
initialized to `toc_start`. -/
theorem C6_counterexample :
    findTocPages ["Contents"] 10 ["Contents"] = (some 0, some 0) ∧
    firstMarkerPage ["Contents"] ["Contents"] 1 = some 0 ∧
    tocEndSpec ["Contents"] 1 0 = none ∧
    hasDotRun "Contents" = false := by
  refine ⟨?_, ?_, ?_, ?_⟩ <;> decide

/-- C6 (amended): the locator returns `(none, none)` exactly when no page
within the scan limit contains a marker keyword; otherwise `toc_start` is
the first such page and `toc_end` is one less than the first later scanned
page with no dot-leader run, else the last scanned page (from `toc_start`
on) with a dot-leader run, else `toc_start` itself when no scanned page
contains a dot-leader run. -/
theorem C6_theorem (tocKeywords : List String) (tocMaxSearchPages : Nat)
    (pages : List String) :
    (findTocPages tocKeywords tocMaxSearchPages pages = (none, none) ↔
      firstMarkerPage tocKeywords pages (min tocMaxSearchPages pages.length) = none) ∧
    (∀ s, firstMarkerPage tocKeywords pages (min tocMaxSearchPages pages.length) = some s →
      findTocPages tocKeywords tocMaxSearchPages pages =
        (some s,
          some (match tocEndSpec pages (min tocMaxSearchPages pages.length) s with
            | some e => e
            | none => s))) := by
  set M := min tocMaxSearchPages pages.length with hM
  have hloop := findTocLoop_none pages tocKeywords M M 0 (by omega)
  have hfind : findTocPages tocKeywords tocMaxSearchPages pages =
      findTocLoop pages tocKeywords M (List.range' 0 M) none := by
    rw [findTocPages, ← hM, ← List.range_eq_range']
  have hmarker : firstMarkerPage tocKeywords pages M =
      (List.range' 0 M).find?
        (fun p => tocKeywords.any fun kw => containsLower kw (pages.getD p "")) := by
    rw [firstMarkerPage, List.range_eq_range']
  rw [hfind, hloop, hmarker]
  cases hF : (List.range' 0 M).find?
      (fun p => tocKeywords.any fun kw => containsLower kw (pages.getD p "")) with
  | none =>
    refine ⟨by simp, ?_⟩
    intro s hs
    exact Option.noConfusion hs
  | some s0 =>
    refine ⟨by simp, ?_⟩
    intro s hs
    injection hs with hs0
    subst hs0
    show (some s0,
        some (match (List.range' (s0 + 1) (M - (s0 + 1))).find?
            (fun p => !hasDotRun (pages.getD p "")) with
          | some p => p - 1
          | none => lastDotPage pages s0 M)) = _
    unfold tocEndSpec
    cases hD : (List.range' (s0 + 1) (M - (s0 + 1))).find?
        (fun p => !hasDotRun (pages.getD p "")) with
    | some p => rfl
    | none =>
      show (some s0, some (lastDotPage pages s0 M)) = _
      rw [lastDotPage_eq]
      cases hG : ((List.range' s0 (M - s0)).filter
          (fun p => hasDotRun (pages.getD p ""))).getLast? with
      | some e => rfl
      | none => rfl

/-- C6 witness: a document whose marker is on page 1, page 2 has a
dot-leader run and page 3 does not, so the TOC region is `(1, 2)`. -/
theorem C6_witness :
    findTocPages ["Contents"] 10 ["Sample", "Contents", "a ..... 3", "plain"] =
      (some 1, some 2) := by
  have h := ( C6_theorem ["Contents"] 10
    ["Sample", "Contents", "a ..... 3", "plain"]).2 1 (by decide)
  rw [h]
  decide

/-! ## Matcher invariants (claims C5, C4, C1) -/

theorem fuzzyStep_claimed (cfg : MatchingConfig) (sim : Rat) (b : Block)
    (pg : Int) (st : ScanState) :
    (fuzzyStep cfg sim b pg st).claimed = st.claimed := by
  unfold fuzzyStep
  split
  · rfl
  split <;> rfl

theorem fuzzyStep_toc (cfg : MatchingConfig) (sim : Rat) (b : Block)
    (pg : Int) (st : ScanState) :
    (fuzzyStep cfg sim b pg st).mr.toc_entry = st.mr.toc_entry := by
  unfold fuzzyStep
  split
  · rfl
  split <;> rfl

theorem fuzzyStep_mr_cases (cfg : MatchingConfig) (sim : Rat) (b : Block)
    (pg : Int) (st : ScanState) :
    (fuzzyStep cfg sim b pg st).mr = st.mr ∨
    ((fuzzyStep cfg sim b pg st).mr.matched = true ∧
      (fuzzyStep cfg sim b pg st).mr.page_num = pg ∧
      (fuzzyStep cfg sim b pg st).mr.similarity = sim ∧
      (fuzzyStep cfg sim b pg st).mr.matched_text = b.text) := by
  unfold fuzzyStep
  split
  · exact Or.inr ⟨rfl, rfl, rfl, rfl⟩
  split <;> exact Or.inl rfl

theorem scanBlocks_nil (ratio : String → String → Rat) (cfg : MatchingConfig)
    (tocN : String) (pg : Int) (idx : Nat) (st : ScanState) :
    scanBlocks ratio cfg tocN pg idx [] st = st := rfl

theorem scanBlocks_cons_skip (ratio : String → String → Rat)
    (cfg : MatchingConfig) (tocN : String) (pg : Int) (idx : Nat) (b : Block)
    (rest : List Block) (st : ScanState) (h : (pg, idx) ∈ st.claimed) :
    scanBlocks ratio cfg tocN pg idx (b :: rest) st =
      scanBlocks ratio cfg tocN pg (idx + 1) rest st := by
  simp only [scanBlocks]
  rw [if_pos h]

theorem scanBlocks_cons_exact (ratio : String → String → Rat)
    (cfg : MatchingConfig) (tocN : String) (pg : Int) (idx : Nat) (b : Block)
    (rest : List Block) (st : ScanState) (h1 : (pg, idx) ∉ st.claimed)
    (h2 : pyStartsWith (normalizeText b.text) tocN = true) :
    scanBlocks ratio cfg tocN pg idx (b :: rest) st =
      { st with
        mr := { st.mr with
          matched := true,
          matched_text := b.text,
          page_num := pg,
          similarity := 1 },
        claimed := (pg, idx) :: st.claimed } := by
  simp only [scanBlocks]
  rw [if_neg h1, if_pos h2]

theorem scanBlocks_cons_combined (ratio : String → String → Rat)
    (cfg : MatchingConfig) (tocN : String) (pg : Int) (idx : Nat) (b nb : Block)
    (rest : List Block) (st : ScanState) (h1 : (pg, idx) ∉ st.claimed)
    (h2 : pyStartsWith (normalizeText b.text) tocN = false)
    (h3 : pyStartsWith (normalizeText b.text ++ " " ++ normalizeText nb.text)
      tocN = true) :
    scanBlocks ratio cfg tocN pg idx (b :: nb :: rest) st =
      { st with
        mr := { st.mr with
          matched := true,
          matched_text := b.text ++ " " ++ nb.text,
          page_num := pg,
          similarity := 1 },
        claimed := (pg, idx + 1) :: (pg, idx) :: st.claimed } := by
  simp only [scanBlocks]
  rw [if_neg h1, if_neg (by simp [h2]), if_pos h3]

theorem scanBlocks_cons_fuzzy_nil (ratio : String → String → Rat)
    (cfg : MatchingConfig) (tocN : String) (pg : Int) (idx : Nat) (b : Block)
    (st : ScanState) (h1 : (pg, idx) ∉ st.claimed)
    (h2 : pyStartsWith (normalizeText b.text) tocN = false) :
    scanBlocks ratio cfg tocN pg idx [b] st =
      fuzzyStep cfg (ratio tocN (normalizeText b.text)) b pg st := by
  simp only [scanBlocks]
  rw [if_neg h1, if_neg (by simp [h2])]

theorem scanBlocks_cons_fuzzy (ratio : String → String → Rat)
    (cfg : MatchingConfig) (tocN : String) (pg : Int) (idx : Nat) (b nb : Block)
    (rest : List Block) (st : ScanState) (h1 : (pg, idx) ∉ st.claimed)
    (h2 : pyStartsWith (normalizeText b.text) tocN = false)
    (h3 : pyStartsWith (normalizeText b.text ++ " " ++ normalizeText nb.text)
      tocN = false) :
    scanBlocks ratio cfg tocN pg idx (b :: nb :: rest) st =
      scanBlocks ratio cfg tocN pg (idx + 1) (nb :: rest)
        (fuzzyStep cfg (ratio tocN (normalizeText b.text)) b pg st) := by
  simp only [scanBlocks]
  rw [if_neg h1, if_neg (by simp [h2]), if_neg (by simp [h3])]

theorem scanPages_nil (ratio : String → String → Rat) (cfg : MatchingConfig)
    (tocN : String) (pd : List (Int × List Block)) (st : ScanState) :
    scanPages ratio cfg tocN pd [] st = st := rfl

theorem scanPages_cons_none (ratio : String → String → Rat)
    (cfg : MatchingConfig) (tocN : String) (pd : List (Int × List Block))
    (pg : Int) (rest : List Int) (st : ScanState) (hlk : pd.lookup pg = none) :
    scanPages ratio cfg tocN pd (pg :: rest) st =
      scanPages ratio cfg tocN pd rest st := by
  simp only [scanPages, hlk]

theorem scanPages_cons_some (ratio : String → String → Rat)
    (cfg : MatchingConfig) (tocN : String) (pd : List (Int × List Block))
    (pg : Int) (rest : List Int) (st : ScanState) (blocks : List Block)
    (hlk : pd.lookup pg = some blocks) :
    scanPages ratio cfg tocN pd (pg :: rest) st =
      (if (scanBlocks ratio cfg tocN pg 0 blocks st).mr.matched = true ∧
          (scanBlocks ratio cfg tocN pg 0 blocks st).mr.similarity ≥ 1
      then scanBlocks ratio cfg tocN pg 0 blocks st
      else scanPages ratio cfg tocN pd rest
        (scanBlocks ratio cfg tocN pg 0 blocks st)) := by
  simp only [scanPages, hlk]

theorem pyStartsWith_self (s : String) : pyStartsWith s s = true :=
  List.isPrefixOf_iff_prefix.mpr (List.prefix_refl s.data)

/-- Master case analysis for the inner block loop: either no exact or
concatenated hit fired — the claimed set is unchanged and the result under
construction is untouched or holds a fuzzy candidate drawn from an unclaimed
block of this page — or such a hit fired at an unclaimed index, claiming one
or two keys of this page and recording similarity 1. -/
theorem scanBlocks_master (ratio : String → String → Rat) (cfg : MatchingConfig)
    (tocN : String) (pg : Int) :
    ∀ (blocks : List Block) (idx : Nat) (st : ScanState),
      ((scanBlocks ratio cfg tocN pg idx blocks st).claimed = st.claimed ∧
        (scanBlocks ratio cfg tocN pg idx blocks st).mr.toc_entry = st.mr.toc_entry ∧
        ((scanBlocks ratio cfg tocN pg idx blocks st).mr = st.mr ∨
          ∃ j b, blocks.get? j = some b ∧ (pg, idx + j) ∉ st.claimed ∧
            pyStartsWith (normalizeText b.text) tocN = false ∧
            (scanBlocks ratio cfg tocN pg idx blocks st).mr.matched = true ∧
            (scanBlocks ratio cfg tocN pg idx blocks st).mr.page_num = pg ∧
            (scanBlocks ratio cfg tocN pg idx blocks st).mr.matched_text = b.text ∧
            (scanBlocks ratio cfg tocN pg idx blocks st).mr.similarity =
              ratio tocN (normalizeText b.text))) ∨
      (∃ i, (pg, i) ∉ st.claimed ∧
        ((scanBlocks ratio cfg tocN pg idx blocks st).claimed =
            (pg, i) :: st.claimed ∨
          (scanBlocks ratio cfg tocN pg idx blocks st).claimed =
            (pg, i + 1) :: (pg, i) :: st.claimed) ∧
        (scanBlocks ratio cfg tocN pg idx blocks st).mr.toc_entry = st.mr.toc_entry ∧
        (scanBlocks ratio cfg tocN pg idx blocks st).mr.matched = true ∧
        (scanBlocks ratio cfg tocN pg idx blocks st).mr.page_num = pg ∧
        (scanBlocks ratio cfg tocN pg idx blocks st).mr.similarity = 1)
  | [], idx, st => Or.inl ⟨rfl, rfl, Or.inl rfl⟩
  | b :: rest, idx, st => by
    by_cases hcl : (pg, idx) ∈ st.claimed
    · rw [scanBlocks_cons_skip ratio cfg tocN pg idx b rest st hcl]
      rcases scanBlocks_master ratio cfg tocN pg rest (idx + 1) st with
        ⟨hc, ht, hmr⟩ | ⟨i, hi, hcl', ht, hm, hp, hs⟩
      · refine Or.inl ⟨hc, ht, ?_⟩
        rcases hmr with h | ⟨j, b', hj, hjcl, hsw, hrest⟩
        · exact Or.inl h
        · exact Or.inr ⟨j + 1, b', hj, by
            rw [show idx + (j + 1) = idx + 1 + j by omega]; exact hjcl, hsw, hrest⟩
      · exact Or.inr ⟨i, hi, hcl', ht, hm, hp, hs⟩
    by_cases hex : pyStartsWith (normalizeText b.text) tocN = true
    · rw [scanBlocks_cons_exact ratio cfg tocN pg idx b rest st hcl hex]
      exact Or.inr ⟨idx, hcl, Or.inl rfl, rfl, rfl, rfl, rfl⟩
    have hex' : pyStartsWith (normalizeText b.text) tocN = false := by
      simpa using hex
    cases rest with
    | nil =>
      rw [scanBlocks_cons_fuzzy_nil ratio cfg tocN pg idx b st hcl hex']
      refine Or.inl ⟨fuzzyStep_claimed cfg _ b pg st, fuzzyStep_toc cfg _ b pg st, ?_⟩
      rcases fuzzyStep_mr_cases cfg (ratio tocN (normalizeText b.text)) b pg st with
        h | ⟨hm, hp, hs, htx⟩
      · exact Or.inl h
      · exact Or.inr ⟨0, b, rfl, by rw [Nat.add_zero]; exact hcl, hex', hm, hp, htx, hs⟩
    | cons nb rest' =>
      by_cases hcb : pyStartsWith (normalizeText b.text ++ " " ++ normalizeText nb.text)
          tocN = true
      · rw [scanBlocks_cons_combined ratio cfg tocN pg idx b nb rest' st hcl hex' hcb]
        exact Or.inr ⟨idx, hcl, Or.inr rfl, rfl, rfl, rfl, rfl⟩
      · have hcb' : pyStartsWith (normalizeText b.text ++ " " ++ normalizeText nb.text)
            tocN = false := by simpa using hcb
        rw [scanBlocks_cons_fuzzy ratio cfg tocN pg idx b nb rest' st hcl hex' hcb']
        rcases scanBlocks_master ratio cfg tocN pg (nb :: rest') (idx + 1)
            (fuzzyStep cfg (ratio tocN (normalizeText b.text)) b pg st) with
          ⟨hc, ht, hmr⟩ | ⟨i, hi, hcl', ht, hm, hp, hs⟩
        · rw [fuzzyStep_claimed cfg _ b pg st] at hc
          refine Or.inl ⟨hc, ht.trans (fuzzyStep_toc cfg _ b pg st), ?_⟩
          rcases hmr with h | ⟨j, b', hj, hjcl, hsw, hm', hp', htx', hs'⟩
          · rw [h]
            rcases fuzzyStep_mr_cases cfg (ratio tocN (normalizeText b.text)) b pg st with
              h' | ⟨hm, hp, hs, htx⟩
            · exact Or.inl h'
            · exact Or.inr ⟨0, b, rfl, by rw [Nat.add_zero]; exact hcl, hex', hm, hp, htx, hs⟩
          · rw [fuzzyStep_claimed cfg _ b pg st] at hjcl
            exact Or.inr ⟨j + 1, b', hj, by
              rw [show idx + (j + 1) = idx + 1 + j by omega]; exact hjcl, hsw, hm', hp', htx', hs'⟩
        · rw [fuzzyStep_claimed cfg _ b pg st] at hcl' hi
          exact Or.inr ⟨i, hi, hcl', ht.trans (fuzzyStep_toc cfg _ b pg st), hm, hp, hs⟩

theorem scanBlocks_mr_simple (ratio : String → String → Rat)
    (cfg : MatchingConfig) (tocN : String) (pg : Int) (blocks : List Block)
    (idx : Nat) (st : ScanState) :
    (scanBlocks ratio cfg tocN pg idx blocks st).mr = st.mr ∨
    ((scanBlocks ratio cfg tocN pg idx blocks st).mr.matched = true ∧
      (scanBlocks ratio cfg tocN pg idx blocks st).mr.page_num = pg) := by
  rcases scanBlocks_master ratio cfg tocN pg blocks idx st with
    ⟨_, _, hmr⟩ | ⟨_, _, _, _, hm, hp, _⟩
  · rcases hmr with h | ⟨_, _, _, _, _, hm, hp, _⟩
    · exact Or.inl h
    · exact Or.inr ⟨hm, hp⟩
  · exact Or.inr ⟨hm, hp⟩

theorem scanBlocks_toc (ratio : String → String → Rat)
    (cfg : MatchingConfig) (tocN : String) (pg : Int) (blocks : List Block)
    (idx : Nat) (st : ScanState) :
    (scanBlocks ratio cfg tocN pg idx blocks st).mr.toc_entry = st.mr.toc_entry := by
  rcases scanBlocks_master ratio cfg tocN pg blocks idx st with
    ⟨_, ht, _⟩ | ⟨_, _, _, ht, _, _, _⟩ <;> exact ht

theorem scanPages_mr_cases (ratio : String → String → Rat)
    (cfg : MatchingConfig) (tocN : String) (pd : List (Int × List Block)) :
    ∀ (pages : List Int) (st : ScanState),
      (scanPages ratio cfg tocN pd pages st).mr = st.mr ∨
      ((scanPages ratio cfg tocN pd pages st).mr.matched = true ∧
        (scanPages ratio cfg tocN pd pages st).mr.page_num ∈ pages ∧
        pd.lookup (scanPages ratio cfg tocN pd pages st).mr.page_num ≠ none)
  | [], st => Or.inl rfl
  | pg :: rest, st => by
    cases hlk : pd.lookup pg with
    | none =>
      rw [scanPages_cons_none ratio cfg tocN pd pg rest st hlk]
      rcases scanPages_mr_cases ratio cfg tocN pd rest st with h | ⟨h1, h2, h3⟩
      · exact Or.inl h
      · exact Or.inr ⟨h1, List.mem_cons_of_mem pg h2, h3⟩
    | some blocks =>
      rw [scanPages_cons_some ratio cfg tocN pd pg rest st blocks hlk]
      by_cases hstop : (scanBlocks ratio cfg tocN pg 0 blocks st).mr.matched = true ∧
          (scanBlocks ratio cfg tocN pg 0 blocks st).mr.similarity ≥ 1
      · rw [if_pos hstop]
        rcases scanBlocks_mr_simple ratio cfg tocN pg blocks 0 st with h | ⟨h1, h2⟩
        · exact Or.inl h
        · refine Or.inr ⟨h1, ?_, ?_⟩
          · rw [h2]; exact List.mem_cons_self pg rest
          · rw [h2, hlk]; exact fun h' => Option.noConfusion h'
      · rw [if_neg hstop]
        rcases scanPages_mr_cases ratio cfg tocN pd rest
            (scanBlocks ratio cfg tocN pg 0 blocks st) with h | ⟨h1, h2, h3⟩
        · rw [h]
          rcases scanBlocks_mr_simple ratio cfg tocN pg blocks 0 st with h' | ⟨h1', h2'⟩
          · exact Or.inl h'
          · refine Or.inr ⟨h1', ?_, ?_⟩
            · rw [h2']; exact List.mem_cons_self pg rest
            · rw [h2', hlk]; exact fun h' => Option.noConfusion h'
        · exact Or.inr ⟨h1, List.mem_cons_of_mem pg h2, h3⟩

theorem scanPages_toc (ratio : String → String → Rat)
    (cfg : MatchingConfig) (tocN : String) (pd : List (Int × List Block)) :
    ∀ (pages : List Int) (st : ScanState),
      (scanPages ratio cfg tocN pd pages st).mr.toc_entry = st.mr.toc_entry
  | [], st => rfl
  | pg :: rest, st => by
    cases hlk : pd.lookup pg with
    | none =>
      rw [scanPages_cons_none ratio cfg tocN pd pg rest st hlk]
      exact scanPages_toc ratio cfg tocN pd rest st
    | some blocks =>
      rw [scanPages_cons_some ratio cfg tocN pd pg rest st blocks hlk]
      by_cases hstop : (scanBlocks ratio cfg tocN pg 0 blocks st).mr.matched = true ∧
          (scanBlocks ratio cfg tocN pg 0 blocks st).mr.similarity ≥ 1
      · rw [if_pos hstop]
        exact scanBlocks_toc ratio cfg tocN pg blocks 0 st
      · rw [if_neg hstop]
        exact (scanPages_toc ratio cfg tocN pd rest _).trans
          (scanBlocks_toc ratio cfg tocN pg blocks 0 st)

theorem mem_intRange {a b pg : Int} (h : pg ∈ intRange a b) : a ≤ pg ∧ pg < b := by
  simp only [intRange, List.mem_map, List.mem_range] at h
  obtain ⟨i, hi, hpg⟩ := h
  omega

/-- Window facts for one processed entry: a successful match lies in the
clamped search window and on an actual page of `pages_data`, and the result
references the processed entry. -/
theorem processEntry_window (ratio : String → String → Rat) (cfg : MatchingConfig)
    (pd : List (Int × List Block)) (bodyStart : Int) (claimed : List (Int × Nat))
    (entry : TocEntry)
    (hm : (processEntry ratio cfg pd bodyStart claimed entry).1.matched = true) :
    (processEntry ratio cfg pd bodyStart claimed entry).1.toc_entry = entry ∧
    bodyStart + (entry.page_number : Int) - 1 - cfg.page_search_window ≤
      (processEntry ratio cfg pd bodyStart claimed entry).1.page_num ∧
    (processEntry ratio cfg pd bodyStart claimed entry).1.page_num ≤
      bodyStart + (entry.page_number : Int) - 1 + cfg.page_search_window ∧
    bodyStart ≤ (processEntry ratio cfg pd bodyStart claimed entry).1.page_num ∧
    pd.lookup (processEntry ratio cfg pd bodyStart claimed entry).1.page_num ≠
      none := by
  by_cases hsec : entry.is_section = false
  · exfalso
    have : (processEntry ratio cfg pd bodyStart claimed entry).1.matched = false := by
      unfold processEntry
      rw [if_pos hsec]
    rw [hm] at this
    exact Bool.noConfusion this
  have hpe : processEntry ratio cfg pd bodyStart claimed entry =
      (let estimatedPage : Int := bodyStart + (entry.page_number : Int) - 1
      let searchStart := max bodyStart (estimatedPage - cfg.page_search_window)
      let searchEnd :=
        min (if pd.isEmpty then bodyStart else maxKey pd + 1)
          (estimatedPage + cfg.page_search_window + 1)
      let pages := intRange searchStart searchEnd
      let st := scanPages ratio cfg (normalizeText entry.clean_text) pd pages
        { mr := { toc_entry := entry, matched := false }, best := 0,
          suggestions := [], claimed := claimed }
      let claimed' :=
        if st.mr.matched = true ∧ st.mr.similarity < 1 then
          registerFuzzy pd pages st.mr.matched_text st.claimed
        else st.claimed
      let mrOut :=
        if st.mr.matched = false then
          { st.mr with
            suggestions := (sortSuggestions st.suggestions).take cfg.max_suggestions }
        else st.mr
      (mrOut, claimed')) := by
    unfold processEntry
    rw [if_neg hsec]
  rw [hpe] at hm ⊢
  simp only at hm ⊢
  set st := scanPages ratio cfg (normalizeText entry.clean_text) pd
    (intRange (max bodyStart (bodyStart + (entry.page_number : Int) - 1 -
        cfg.page_search_window))
      (min (if pd.isEmpty then bodyStart else maxKey pd + 1)
        (bodyStart + (entry.page_number : Int) - 1 + cfg.page_search_window + 1)))
    { mr := { toc_entry := entry, matched := false }, best := 0,
      suggestions := [], claimed := claimed } with hst
  by_cases hmf : st.mr.matched = false
  · exfalso
    rw [if_pos hmf] at hm
    simp only at hm
    rw [hmf] at hm
    exact Bool.noConfusion hm
  rw [if_neg hmf] at hm ⊢
  have hmt : st.mr.matched = true := by
    cases h : st.mr.matched
    · exact absurd h hmf
    · rfl
  have htoc : st.mr.toc_entry = entry := by
    rw [hst]
    exact scanPages_toc ratio cfg (normalizeText entry.clean_text) pd _ _
  rcases hst ▸ scanPages_mr_cases ratio cfg (normalizeText entry.clean_text) pd
      (intRange (max bodyStart (bodyStart + (entry.page_number : Int) - 1 -
          cfg.page_search_window))
        (min (if pd.isEmpty then bodyStart else maxKey pd + 1)
          (bodyStart + (entry.page_number : Int) - 1 + cfg.page_search_window + 1)))
      { mr := { toc_entry := entry, matched := false }, best := 0,
        suggestions := [], claimed := claimed } with h | ⟨_, hmem, hlk⟩
  · exfalso
    rw [h] at hmt
    exact Bool.noConfusion hmt
  · obtain ⟨hlow, hhigh⟩ := mem_intRange hmem
    refine ⟨htoc, by omega, ?_, by omega, hlk⟩
    have := le_min_iff.mp (le_of_lt hhigh)
    omega

theorem matchAux_window (ratio : String → String → Rat) (cfg : MatchingConfig)
    (pd : List (Int × List Block)) (bodyStart : Int) :
    ∀ (entries : List TocEntry) (claimed : List (Int × Nat)) (mr : MatchResult),
      mr ∈ (matchAux ratio cfg pd bodyStart entries claimed).1 →
      mr.matched = true →
      bodyStart + (mr.toc_entry.page_number : Int) - 1 - cfg.page_search_window ≤
        mr.page_num ∧
      mr.page_num ≤
        bodyStart + (mr.toc_entry.page_number : Int) - 1 + cfg.page_search_window ∧
      bodyStart ≤ mr.page_num ∧ pd.lookup mr.page_num ≠ none
  | [], _, mr, hmr, _ => absurd hmr (List.not_mem_nil mr)
  | e :: es, claimed, mr, hmr, hm => by
    rw [show (matchAux ratio cfg pd bodyStart (e :: es) claimed).1 =
        (processEntry ratio cfg pd bodyStart claimed e).1 ::
          (matchAux ratio cfg pd bodyStart es
            (processEntry ratio cfg pd bodyStart claimed e).2).1 from rfl] at hmr
    rcases List.mem_cons.mp hmr with heq | hmem
    · subst heq
      obtain ⟨htoc, h1, h2, h3, h4⟩ :=
        processEntry_window ratio cfg pd bodyStart claimed e hm
      rw [htoc]
      exact ⟨h1, h2, h3, h4⟩
    · exact matchAux_window ratio cfg pd bodyStart es _ mr hmem hm

/-- C5: every successful `MatchResult` of `_match_toc_to_body` has a page
inside the declared-page window `body_start + declared_page - 1 ±
page_window`, is clamped below by `body_start`, and lies on an actual page
of `pages_data`; a fragment on a page outside the window is never assigned. -/
theorem C5_theorem (ratio : String → String → Rat) (cfg : MatchingConfig)
    (entries : List TocEntry) (pd : List (Int × List Block)) (bodyStart : Int)
    (mr : MatchResult) (hmr : mr ∈ matchTocToBody ratio cfg entries pd bodyStart)
    (hm : mr.matched = true) :
    bodyStart + (mr.toc_entry.page_number : Int) - 1 - cfg.page_search_window ≤
      mr.page_num ∧
    mr.page_num ≤
      bodyStart + (mr.toc_entry.page_number : Int) - 1 + cfg.page_search_window ∧
    bodyStart ≤ mr.page_num ∧ pd.lookup mr.page_num ≠ none :=
  matchAux_window ratio cfg pd bodyStart entries [] mr hmr hm

/-- C5 witness: the window theorem at a one-entry document whose heading
sits on page 0. -/
theorem C5_witness :
    (0 : Int) +
        (((⟨⟨"abc", "abc", 1, 1, true, ""⟩, true, "abc", 0, 1, []⟩ :
          MatchResult).toc_entry.page_number : Nat) : Int) - 1 -
        ({} : MatchingConfig).page_search_window ≤
      (⟨⟨"abc", "abc", 1, 1, true, ""⟩, true, "abc", 0, 1, []⟩ :
        MatchResult).page_num ∧
    (⟨⟨"abc", "abc", 1, 1, true, ""⟩, true, "abc", 0, 1, []⟩ :
        MatchResult).page_num ≤
      (0 : Int) +
        (((⟨⟨"abc", "abc", 1, 1, true, ""⟩, true, "abc", 0, 1, []⟩ :
          MatchResult).toc_entry.page_number : Nat) : Int) - 1 +
        ({} : MatchingConfig).page_search_window ∧
    (0 : Int) ≤ (⟨⟨"abc", "abc", 1, 1, true, ""⟩, true, "abc", 0, 1, []⟩ :
      MatchResult).page_num ∧
    ([((0 : Int), [(⟨"abc", false, false⟩ : Block)])]).lookup
      (⟨⟨"abc", "abc", 1, 1, true, ""⟩, true, "abc", 0, 1, []⟩ :
        MatchResult).page_num ≠ none :=
  C5_theorem (fun _ _ => 0) {} [⟨"abc", "abc", 1, 1, true, ""⟩]
    [((0 : Int), [⟨"abc", false, false⟩])] 0
    ⟨⟨"abc", "abc", 1, 1, true, ""⟩, true, "abc", 0, 1, []⟩
    (by decide) (by decide)

theorem scanBlocks_sim (ratio : String → String → Rat) (cfg : MatchingConfig)
    (tocN : String) (pg : Int) (blocks : List Block) (idx : Nat) (st : ScanState)
    (Hle : ∀ a b, ratio a b ≤ 1) (hsim : st.mr.similarity ≤ 1) :
    (scanBlocks ratio cfg tocN pg idx blocks st).mr.similarity ≤ 1 := by
  rcases scanBlocks_master ratio cfg tocN pg blocks idx st with
    ⟨_, _, hmr⟩ | ⟨_, _, _, _, _, _, hs⟩
  · rcases hmr with h | ⟨_, _, _, _, _, _, _, _, hs'⟩
    · rw [h]; exact hsim
    · rw [hs']; exact Hle _ _
  · rw [hs]

theorem scanBlocks_complete (ratio : String → String → Rat) (cfg : MatchingConfig)
    (tocN : String) (pg : Int) :
    ∀ (blocks : List Block) (idx : Nat) (st : ScanState) (j : Nat) (b : Block),
      blocks.get? j = some b → (pg, idx + j) ∉ st.claimed →
      pyStartsWith (normalizeText b.text) tocN = true →
      (scanBlocks ratio cfg tocN pg idx blocks st).mr.matched = true ∧
      (scanBlocks ratio cfg tocN pg idx blocks st).mr.similarity = 1
  | [], _, _, j, b, hj, _, _ => by simp at hj
  | b0 :: rest, idx, st, j, b, hj, hjcl, hsw => by
    by_cases hcl : (pg, idx) ∈ st.claimed
    · rw [scanBlocks_cons_skip ratio cfg tocN pg idx b0 rest st hcl]
      cases j with
      | zero =>
        rw [List.get?_cons_zero] at hj
        injection hj with hj
        rw [Nat.add_zero] at hjcl
        exact absurd hcl hjcl
      | succ j' =>
        rw [List.get?_cons_succ] at hj
        exact scanBlocks_complete ratio cfg tocN pg rest (idx + 1) st j' b hj
          (by rw [show idx + 1 + j' = idx + (j' + 1) by omega]; exact hjcl) hsw
    by_cases hex : pyStartsWith (normalizeText b0.text) tocN = true
    · rw [scanBlocks_cons_exact ratio cfg tocN pg idx b0 rest st hcl hex]
      exact ⟨rfl, rfl⟩
    have hex' : pyStartsWith (normalizeText b0.text) tocN = false := by simpa using hex
    cases rest with
    | nil =>
      cases j with
      | zero =>
        rw [List.get?_cons_zero] at hj
        injection hj with hj
        subst hj
        rw [hsw] at hex'
        exact Bool.noConfusion hex'
      | succ j' => simp at hj
    | cons nb rest' =>
      by_cases hcb : pyStartsWith
          (normalizeText b0.text ++ " " ++ normalizeText nb.text) tocN = true
      · rw [scanBlocks_cons_combined ratio cfg tocN pg idx b0 nb rest' st hcl hex' hcb]
        exact ⟨rfl, rfl⟩
      · have hcb' : pyStartsWith
            (normalizeText b0.text ++ " " ++ normalizeText nb.text) tocN = false := by
          simpa using hcb
        rw [scanBlocks_cons_fuzzy ratio cfg tocN pg idx b0 nb rest' st hcl hex' hcb']
        cases j with
        | zero =>
          rw [List.get?_cons_zero] at hj
          injection hj with hj
          subst hj
          rw [hsw] at hex'
          exact Bool.noConfusion hex'
        | succ j' =>
          rw [List.get?_cons_succ] at hj
          refine scanBlocks_complete ratio cfg tocN pg (nb :: rest') (idx + 1)
            (fuzzyStep cfg (ratio tocN (normalizeText b0.text)) b0 pg st) j' b hj ?_ hsw
          rw [fuzzyStep_claimed cfg _ b0 pg st,
            show idx + 1 + j' = idx + (j' + 1) by omega]
          exact hjcl

theorem scanPages_complete (ratio : String → String → Rat) (cfg : MatchingConfig)
    (tocN : String) (pd : List (Int × List Block))
    (Hle : ∀ a b, ratio a b ≤ 1) :
    ∀ (pages : List Int) (st : ScanState), st.mr.similarity ≤ 1 →
      ∀ (pgT : Int), pgT ∈ pages →
      ∀ (blocks : List Block), pd.lookup pgT = some blocks →
      ∀ (j : Nat) (b : Block), blocks.get? j = some b →
      (pgT, j) ∉ st.claimed →
      pyStartsWith (normalizeText b.text) tocN = true →
      (scanPages ratio cfg tocN pd pages st).mr.matched = true ∧
      (scanPages ratio cfg tocN pd pages st).mr.similarity = 1
  | [], _, _, pgT, hpg, _, _, _, _, _, _, _ => absurd hpg (List.not_mem_nil pgT)
  | pg0 :: rest, st, hsim, pgT, hpg, blocks, hlk, j, b, hj, hcl, hsw => by
    cases hlk0 : pd.lookup pg0 with
    | none =>
      rw [scanPages_cons_none ratio cfg tocN pd pg0 rest st hlk0]
      rcases List.mem_cons.mp hpg with heq | hmem
      · subst heq
        rw [hlk0] at hlk
        exact Option.noConfusion hlk
      · exact scanPages_complete ratio cfg tocN pd Hle rest st hsim pgT hmem
          blocks hlk j b hj hcl hsw
    | some blocks0 =>
      rw [scanPages_cons_some ratio cfg tocN pd pg0 rest st blocks0 hlk0]
      by_cases hstop : (scanBlocks ratio cfg tocN pg0 0 blocks0 st).mr.matched = true ∧
          (scanBlocks ratio cfg tocN pg0 0 blocks0 st).mr.similarity ≥ 1
      · rw [if_pos hstop]
        exact ⟨hstop.1, le_antisymm
          (scanBlocks_sim ratio cfg tocN pg0 blocks0 0 st Hle hsim) hstop.2⟩
      · rw [if_neg hstop]
        have hnofire : (scanBlocks ratio cfg tocN pg0 0 blocks0 st).claimed =
            st.claimed := by
          rcases scanBlocks_master ratio cfg tocN pg0 blocks0 0 st with
            ⟨hc, _, _⟩ | ⟨_, _, _, _, hm, _, hs⟩
          · exact hc
          · exact absurd ⟨hm, by rw [hs]⟩ hstop
        rcases List.mem_cons.mp hpg with heq | hmem
        · exfalso
          refine hstop ?_
          rw [heq, hlk0] at hlk
          injection hlk with hlk
          have := scanBlocks_complete ratio cfg tocN pg0 blocks0 0 st j b
            (by rw [hlk]; exact hj)
            (by rw [Nat.zero_add, ← heq]; exact hcl) hsw
          exact ⟨this.1, by rw [this.2]⟩
        · refine scanPages_complete ratio cfg tocN pd Hle rest _
            (scanBlocks_sim ratio cfg tocN pg0 blocks0 0 st Hle hsim) pgT hmem
            blocks hlk j b hj ?_ hsw
          rw [hnofire]
          exact hcl

theorem processEntry_section (ratio : String → String → Rat) (cfg : MatchingConfig)
    (pd : List (Int × List Block)) (bodyStart : Int) (claimed : List (Int × Nat))
    (entry : TocEntry) (hsec : entry.is_section = true) :
    processEntry ratio cfg pd bodyStart claimed entry =
      (let pages := intRange
        (max bodyStart (bodyStart + (entry.page_number : Int) - 1 -
          cfg.page_search_window))
        (min (if pd.isEmpty then bodyStart else maxKey pd + 1)
          (bodyStart + (entry.page_number : Int) - 1 + cfg.page_search_window + 1))
      let st := scanPages ratio cfg (normalizeText entry.clean_text) pd pages
        { mr := { toc_entry := entry, matched := false }, best := 0,
          suggestions := [], claimed := claimed }
      let claimed' :=
        if st.mr.matched = true ∧ st.mr.similarity < 1 then
          registerFuzzy pd pages st.mr.matched_text st.claimed
        else st.claimed
      let mrOut :=
        if st.mr.matched = false then
          { st.mr with
            suggestions := (sortSuggestions st.suggestions).take cfg.max_suggestions }
        else st.mr
      (mrOut, claimed')) := by
  unfold processEntry
  rw [if_neg (by rw [hsec]; exact fun h => Bool.noConfusion h)]

/-- C4 counterexample: entry `"a b"` over page 0 blocks `["a", "b x",
"a b c"]`.  The only fragment whose normalized text starts with the entry's
normalized text is `"a b c"` (index 2), but the matcher accepts the earlier
multi-line concatenation `"a" + " " + "b x"` at index 0 and stops, recording
`matched_text = "a b x"` — not the first (indeed only) exact-prefix
fragment. -/
theorem C4_counterexample :
    (matchTocToBody (fun _ _ => 0) {} [⟨"a b", "a b", 1, 1, true, ""⟩]
        [((0 : Int), [⟨"a", false, false⟩, ⟨"b x", false, false⟩,
          ⟨"a b c", false, false⟩])] 0).map
      (fun r => (r.matched, r.matched_text, r.page_num)) = [(true, "a b x", 0)] ∧
    pyStartsWith (normalizeText "a b c") (normalizeText "a b") = true ∧
    pyStartsWith (normalizeText "a") (normalizeText "a b") = false ∧
    pyStartsWith (normalizeText "b x") (normalizeText "a b") = false ∧
    ("a b x" : String) ≠ "a b c" := by
  refine ⟨?_, ?_, ?_, ?_, ?_⟩ <;> decide

/-- C4 (amended): for a section-type entry, if some fragment of the search
window is unclaimed and its normalized text starts with the entry's
normalized `clean_text`, then the entry's result is a successful match with
similarity exactly 1.0 — though the accepted fragment may be an earlier one
that passes the multi-line concatenation test rather than the first
exact-prefix fragment.  (`ratio` bounded by 1, as `difflib`'s ratio is.) -/
theorem C4_theorem (ratio : String → String → Rat) (cfg : MatchingConfig)
    (pd : List (Int × List Block)) (bodyStart : Int) (claimed : List (Int × Nat))
    (entry : TocEntry) (Hle : ∀ a b, ratio a b ≤ 1)
    (hsec : entry.is_section = true) (pgT : Int) (blocks : List Block)
    (j : Nat) (b : Block)
    (hpg : pgT ∈ intRange
      (max bodyStart (bodyStart + (entry.page_number : Int) - 1 -
        cfg.page_search_window))
      (min (if pd.isEmpty then bodyStart else maxKey pd + 1)
        (bodyStart + (entry.page_number : Int) - 1 + cfg.page_search_window + 1)))
    (hlk : pd.lookup pgT = some blocks) (hj : blocks.get? j = some b)
    (hcl : (pgT, j) ∉ claimed)
    (hsw : pyStartsWith (normalizeText b.text) (normalizeText entry.clean_text)
      = true) :
    (processEntry ratio cfg pd bodyStart claimed entry).1.matched = true ∧
    (processEntry ratio cfg pd bodyStart claimed entry).1.similarity = 1 := by
  rw [processEntry_section ratio cfg pd bodyStart claimed entry hsec]
  simp only
  have hdone := scanPages_complete ratio cfg (normalizeText entry.clean_text) pd Hle
    (intRange
      (max bodyStart (bodyStart + (entry.page_number : Int) - 1 -
        cfg.page_search_window))
      (min (if pd.isEmpty then bodyStart else maxKey pd + 1)
        (bodyStart + (entry.page_number : Int) - 1 + cfg.page_search_window + 1)))
    { mr := { toc_entry := entry, matched := false }, best := 0,
      suggestions := [], claimed := claimed }
    (by norm_num) pgT hpg blocks hlk j b hj hcl hsw
  rw [if_neg (by rw [hdone.1]; exact fun h => Bool.noConfusion h)]
  exact hdone

/-- C4 witness: the amended theorem at a one-entry, one-block document. -/
theorem C4_witness :
    (processEntry (fun _ _ => 0) {} [((0 : Int), [⟨"abc", false, false⟩])] 0 []
      ⟨"abc", "abc", 1, 1, true, ""⟩).1.matched = true ∧
    (processEntry (fun _ _ => 0) {} [((0 : Int), [⟨"abc", false, false⟩])] 0 []
      ⟨"abc", "abc", 1, 1, true, ""⟩).1.similarity = 1 :=
  C4_theorem (fun _ _ => 0) {} [((0 : Int), [⟨"abc", false, false⟩])] 0 []
    ⟨"abc", "abc", 1, 1, true, ""⟩ (fun _ _ => by norm_num) rfl 0
    [⟨"abc", false, false⟩] 0 ⟨"abc", false, false⟩ (by decide) (by decide)
    (by decide) (by decide) (by decide)

/-- Master case analysis for the page loop, for a bounded ratio whose value
1 forces string equality (both hold of `difflib`'s ratio): either no exact
or concatenated hit ever fired — the claimed set is untouched and the result
is unmatched or a fuzzy candidate — or a hit fired, claiming a fresh key on
the matched page. -/
theorem scanPages_master (ratio : String → String → Rat) (cfg : MatchingConfig)
    (tocN : String) (pd : List (Int × List Block))
    (Hle : ∀ a b, ratio a b ≤ 1) (Heq : ∀ a b, ratio a b = 1 → a = b)
    (c : List (Int × Nat)) (pagesAll : List Int) :
    ∀ (pages : List Int) (st : ScanState),
      (∀ p ∈ pages, p ∈ pagesAll) →
      st.claimed = c →
      (st.mr.matched = false ∨ FuzzyForm pd pagesAll c st.mr) →
      ((scanPages ratio cfg tocN pd pages st).claimed = c ∧
        ((scanPages ratio cfg tocN pd pages st).mr.matched = false ∨
          FuzzyForm pd pagesAll c (scanPages ratio cfg tocN pd pages st).mr)) ∨
      ((scanPages ratio cfg tocN pd pages st).mr.matched = true ∧
        (scanPages ratio cfg tocN pd pages st).mr.similarity = 1 ∧
        (∃ k, k ∉ c ∧ k ∈ (scanPages ratio cfg tocN pd pages st).claimed ∧
          k.1 = (scanPages ratio cfg tocN pd pages st).mr.page_num) ∧
        ∃ l, (scanPages ratio cfg tocN pd pages st).claimed = l ++ c)
  | [], st, _, hc, hinv => Or.inl ⟨hc, hinv⟩
  | pg :: rest, st, hsub, hc, hinv => by
    cases hlk : pd.lookup pg with
    | none =>
      rw [scanPages_cons_none ratio cfg tocN pd pg rest st hlk]
      exact scanPages_master ratio cfg tocN pd Hle Heq c pagesAll rest st
        (fun p hp => hsub p (List.mem_cons_of_mem pg hp)) hc hinv
    | some blocks =>
      rw [scanPages_cons_some ratio cfg tocN pd pg rest st blocks hlk]
      rcases scanBlocks_master ratio cfg tocN pg blocks 0 st with
        ⟨hc1, _, hmr1⟩ | ⟨i, hi, hcl1, _, hm1, hp1, hs1⟩
      · have hinv1 : (scanBlocks ratio cfg tocN pg 0 blocks st).mr.matched = false ∨
            FuzzyForm pd pagesAll c (scanBlocks ratio cfg tocN pg 0 blocks st).mr := by
          rcases hmr1 with heqmr | ⟨j, b, hj, hjcl, hsw, hm, hp, htx, hs⟩
          · rw [heqmr]; exact hinv
          · rw [Nat.zero_add, hc] at hjcl
            refine Or.inr ⟨hm, ?_, pg, blocks, j, b,
              hsub pg (List.mem_cons_self pg rest), hlk, hj, hjcl, htx, hp⟩
            rw [hs]
            rcases lt_or_eq_of_le (Hle tocN (normalizeText b.text)) with h | h
            · exact h
            · exfalso
              have := Heq tocN (normalizeText b.text) h
              rw [← this, pyStartsWith_self] at hsw
              exact Bool.noConfusion hsw
        have hnostop : ¬((scanBlocks ratio cfg tocN pg 0 blocks st).mr.matched = true ∧
            (scanBlocks ratio cfg tocN pg 0 blocks st).mr.similarity ≥ 1) := by
          rcases hinv1 with hf | ⟨_, hlt, _⟩
          · intro hcontra
            rw [hf] at hcontra
            exact Bool.noConfusion hcontra.1
          · intro hcontra
            exact absurd hcontra.2 (not_le.mpr hlt)
        rw [if_neg hnostop]
        exact scanPages_master ratio cfg tocN pd Hle Heq c pagesAll rest _
          (fun p hp => hsub p (List.mem_cons_of_mem pg hp)) (hc1.trans hc) hinv1
      · have hstop : (scanBlocks ratio cfg tocN pg 0 blocks st).mr.matched = true ∧
            (scanBlocks ratio cfg tocN pg 0 blocks st).mr.similarity ≥ 1 :=
          ⟨hm1, by rw [hs1]⟩
        rw [if_pos hstop]
        refine Or.inr ⟨hm1, hs1,
          ⟨(pg, i), by rw [← hc]; exact hi, ?_, by rw [hp1]⟩, ?_⟩
        · rcases hcl1 with h | h <;> rw [h] <;> simp
        · rcases hcl1 with h | h
          · exact ⟨[(pg, i)], by rw [h, hc]; rfl⟩
          · exact ⟨[(pg, i + 1), (pg, i)], by rw [h, hc]; rfl⟩

theorem registerFuzzy_cons_none (pd : List (Int × List Block)) (mtext : String)
    (p : Int) (ps : List Int) (cl : List (Int × Nat))
    (hlk : pd.lookup p = none) :
    registerFuzzy pd (p :: ps) mtext cl = registerFuzzy pd ps mtext cl := by
  simp only [registerFuzzy, List.foldl_cons, hlk]

theorem registerFuzzy_cons_miss (pd : List (Int × List Block)) (mtext : String)
    (p : Int) (ps : List Int) (cl : List (Int × Nat)) (blocks : List Block)
    (hlk : pd.lookup p = some blocks)
    (hfind : blocks.enum.find?
        (fun x => x.2.text == mtext && !(cl.contains (p, x.1))) = none) :
    registerFuzzy pd (p :: ps) mtext cl = registerFuzzy pd ps mtext cl := by
  simp only [registerFuzzy, List.foldl_cons, hlk, hfind]

theorem registerFuzzy_cons_hit (pd : List (Int × List Block)) (mtext : String)
    (p : Int) (ps : List Int) (cl : List (Int × Nat)) (blocks : List Block)
    (bi : Nat × Block) (hlk : pd.lookup p = some blocks)
    (hfind : blocks.enum.find?
        (fun x => x.2.text == mtext && !(cl.contains (p, x.1))) = some bi) :
    registerFuzzy pd (p :: ps) mtext cl =
      registerFuzzy pd ps mtext ((p, bi.1) :: cl) := by
  simp only [registerFuzzy, List.foldl_cons, hlk, hfind]

/-- `registerFuzzy` only prepends keys: the input claimed set is a suffix of
the output. -/
theorem registerFuzzy_mono (pd : List (Int × List Block)) (mtext : String) :
    ∀ (pages : List Int) (cl : List (Int × Nat)),
      ∃ l, registerFuzzy pd pages mtext cl = l ++ cl
  | [], cl => ⟨[], rfl⟩
  | p :: ps, cl => by
    cases hlk : pd.lookup p with
    | none =>
      rw [registerFuzzy_cons_none pd mtext p ps cl hlk]
      exact registerFuzzy_mono pd mtext ps cl
    | some blocks =>
      cases hfind : blocks.enum.find?
          (fun x => x.2.text == mtext && !(cl.contains (p, x.1))) with
      | none =>
        rw [registerFuzzy_cons_miss pd mtext p ps cl blocks hlk hfind]
        exact registerFuzzy_mono pd mtext ps cl
      | some bi =>
        rw [registerFuzzy_cons_hit pd mtext p ps cl blocks bi hlk hfind]
        obtain ⟨l, hl⟩ := registerFuzzy_mono pd mtext ps ((p, bi.1) :: cl)
        exact ⟨l ++ [(p, bi.1)], by rw [hl]; simp⟩

/-- If some window page holds a block with the matched text whose key is
still unclaimed, `registerFuzzy` claims a fresh key on that page. -/
theorem registerFuzzy_hit (pd : List (Int × List Block)) (mtext : String) :
    ∀ (pages : List Int) (cl : List (Int × Nat)) (pg : Int)
      (blocks : List Block),
      pg ∈ pages → pd.lookup pg = some blocks →
      (∃ j b, blocks.get? j = some b ∧ b.text = mtext ∧ (pg, j) ∉ cl) →
      ∃ i, (pg, i) ∉ cl ∧ (pg, i) ∈ registerFuzzy pd pages mtext cl
  | [], cl, pg, blocks, hmem, _, _ => absurd hmem (List.not_mem_nil pg)
  | p :: ps, cl, pg, blocks, hmem, hlk, hex => by
    by_cases hpg : pg = p
    · subst hpg
      obtain ⟨j, b, hj, hb, hjcl⟩ := hex
      have hclf : cl.contains (pg, j) = false := by
        cases hcont : cl.contains (pg, j)
        · rfl
        · exact absurd (List.elem_iff.mp hcont) hjcl
      have hfs : (blocks.enum.find?
          (fun x => x.2.text == mtext && !(cl.contains (pg, x.1)))).isSome := by
        apply List.find?_isSome.mpr
        refine ⟨(j, b), List.mk_mem_enum_iff_getElem?.mpr
          (by rw [← List.get?_eq_getElem?]; exact hj), ?_⟩
        simp only [Bool.and_eq_true, beq_iff_eq, Bool.not_eq_true']
        exact ⟨hb, hclf⟩
      obtain ⟨bi, hfind⟩ := Option.isSome_iff_exists.mp hfs
      have hpred := List.find?_some hfind
      simp only [Bool.and_eq_true, beq_iff_eq, Bool.not_eq_true'] at hpred
      have hbifresh : (pg, bi.1) ∉ cl := by
        intro hmem'
        have hcont : cl.contains (pg, bi.1) = true :=
          List.elem_eq_true_of_mem hmem'
        rw [hcont] at hpred
        exact Bool.noConfusion hpred.2
      rw [registerFuzzy_cons_hit pd mtext pg ps cl blocks bi hlk hfind]
      obtain ⟨l, hl⟩ := registerFuzzy_mono pd mtext ps ((pg, bi.1) :: cl)
      exact ⟨bi.1, hbifresh,
        by rw [hl]; exact List.mem_append_right l (List.mem_cons_self _ _)⟩
    · have hmem' : pg ∈ ps := by
        rcases List.mem_cons.mp hmem with h | h
        · exact absurd h hpg
        · exact h
      cases hlk2 : pd.lookup p with
      | none =>
        rw [registerFuzzy_cons_none pd mtext p ps cl hlk2]
        exact registerFuzzy_hit pd mtext ps cl pg blocks hmem' hlk hex
      | some blocks2 =>
        cases hfind : blocks2.enum.find?
            (fun x => x.2.text == mtext && !(cl.contains (p, x.1))) with
        | none =>
          rw [registerFuzzy_cons_miss pd mtext p ps cl blocks2 hlk2 hfind]
          exact registerFuzzy_hit pd mtext ps cl pg blocks hmem' hlk hex
        | some bi =>
          rw [registerFuzzy_cons_hit pd mtext p ps cl blocks2 bi hlk2 hfind]
          obtain ⟨j, b, hj, hb, hjcl⟩ := hex
          obtain ⟨i, hi1, hi2⟩ := registerFuzzy_hit pd mtext ps
            ((p, bi.1) :: cl) pg blocks hmem' hlk
            ⟨j, b, hj, hb, by
              intro hmem''
              rcases List.mem_cons.mp hmem'' with h | h
              · exact hpg (congrArg Prod.fst h)
              · exact hjcl h⟩
          exact ⟨i, fun h => hi1 (List.mem_cons_of_mem _ h), hi2⟩

/-- Per-entry claim bookkeeping: `processEntry` only prepends keys to the
claimed set, and a successful match always owns a key on its reported page
that was unclaimed before the entry was processed. -/
theorem processEntry_claims (ratio : String → String → Rat)
    (cfg : MatchingConfig) (pd : List (Int × List Block)) (bodyStart : Int)
    (Hle : ∀ a b, ratio a b ≤ 1) (Heq : ∀ a b, ratio a b = 1 → a = b)
    (c : List (Int × Nat)) (entry : TocEntry) :
    (∃ l, (processEntry ratio cfg pd bodyStart c entry).2 = l ++ c) ∧
    ((processEntry ratio cfg pd bodyStart c entry).1.matched = true →
      ∃ x, x ∉ c ∧ x ∈ (processEntry ratio cfg pd bodyStart c entry).2 ∧
        x.1 = (processEntry ratio cfg pd bodyStart c entry).1.page_num) := by
  by_cases hsec : entry.is_section = false
  · have hpe : processEntry ratio cfg pd bodyStart c entry =
        ({ toc_entry := entry, matched := false }, c) := by
      unfold processEntry
      rw [if_pos hsec]
    rw [hpe]
    exact ⟨⟨[], rfl⟩, fun hm => Bool.noConfusion hm⟩
  have hpe : processEntry ratio cfg pd bodyStart c entry =
      (let estimatedPage : Int := bodyStart + (entry.page_number : Int) - 1
      let searchStart := max bodyStart (estimatedPage - cfg.page_search_window)
      let searchEnd :=
        min (if pd.isEmpty then bodyStart else maxKey pd + 1)
          (estimatedPage + cfg.page_search_window + 1)
      let pages := intRange searchStart searchEnd
      let st := scanPages ratio cfg (normalizeText entry.clean_text) pd pages
        { mr := { toc_entry := entry, matched := false }, best := 0,
          suggestions := [], claimed := c }
      let claimed' :=
        if st.mr.matched = true ∧ st.mr.similarity < 1 then
          registerFuzzy pd pages st.mr.matched_text st.claimed
        else st.claimed
      let mrOut :=
        if st.mr.matched = false then
          { st.mr with
            suggestions := (sortSuggestions st.suggestions).take cfg.max_suggestions }
        else st.mr
      (mrOut, claimed')) := by
    unfold processEntry
    rw [if_neg hsec]
  rw [hpe]
  simp only
  set pages := intRange
    (max bodyStart (bodyStart + (entry.page_number : Int) - 1 -
      cfg.page_search_window))
    (min (if pd.isEmpty then bodyStart else maxKey pd + 1)
      (bodyStart + (entry.page_number : Int) - 1 + cfg.page_search_window + 1))
    with hpages
  set st := scanPages ratio cfg (normalizeText entry.clean_text) pd pages
    { mr := { toc_entry := entry, matched := false }, best := 0,
      suggestions := [], claimed := c } with hst
  rcases hst ▸ scanPages_master ratio cfg (normalizeText entry.clean_text) pd
      Hle Heq c pages pages
      { mr := { toc_entry := entry, matched := false }, best := 0,
        suggestions := [], claimed := c }
      (fun p hp => hp) rfl (Or.inl rfl) with
    ⟨hcl, hmr⟩ | ⟨hm, hs1, ⟨k, hkc, hkin, hkpg⟩, l, hl⟩
  · rcases hmr with hmf | ⟨hm, hlt, pg, blocks, j, b, hpgmem, hlkpg, hj, hjcl,
      htx, hpn⟩
    · rw [if_neg (fun hcon => by rw [hmf] at hcon; exact Bool.noConfusion hcon.1),
        if_pos hmf]
      refine ⟨⟨[], by rw [hcl]; rfl⟩, fun hmcon => ?_⟩
      simp only at hmcon
      rw [hmf] at hmcon
      exact Bool.noConfusion hmcon
    · rw [if_pos ⟨hm, hlt⟩, if_neg (by rw [hm]; exact fun h => Bool.noConfusion h)]
      rw [hcl]
      refine ⟨registerFuzzy_mono pd st.mr.matched_text pages c, fun _ => ?_⟩
      obtain ⟨i, hi1, hi2⟩ := registerFuzzy_hit pd st.mr.matched_text pages c
        pg blocks hpgmem hlkpg ⟨j, b, hj, htx.symm, hjcl⟩
      exact ⟨(pg, i), hi1, hi2, hpn.symm⟩
  · rw [if_neg (fun hcon => absurd (hs1 ▸ hcon.2) (lt_irrefl 1)),
      if_neg (by rw [hm]; exact fun h => Bool.noConfusion h)]
    exact ⟨⟨l, hl⟩, fun _ => ⟨k, hkc, hl ▸ hkin, hkpg⟩⟩

/-- The entry loop only prepends to the shared `matched_blocks` set. -/
theorem matchAux_mono (ratio : String → String → Rat) (cfg : MatchingConfig)
    (pd : List (Int × List Block)) (bodyStart : Int)
    (Hle : ∀ a b, ratio a b ≤ 1) (Heq : ∀ a b, ratio a b = 1 → a = b) :
    ∀ (entries : List TocEntry) (c : List (Int × Nat)),
      ∃ l, (matchAux ratio cfg pd bodyStart entries c).2 = l ++ c
  | [], c => ⟨[], rfl⟩
  | e :: es, c => by
    obtain ⟨⟨l1, h1⟩, _⟩ :=
      processEntry_claims ratio cfg pd bodyStart Hle Heq c e
    obtain ⟨l2, h2⟩ := matchAux_mono ratio cfg pd bodyStart Hle Heq es
      (processEntry ratio cfg pd bodyStart c e).2
    refine ⟨l2 ++ l1, ?_⟩
    rw [show (matchAux ratio cfg pd bodyStart (e :: es) c).2 =
      (matchAux ratio cfg pd bodyStart es
        (processEntry ratio cfg pd bodyStart c e).2).2 from rfl, h2, h1,
      List.append_assoc]

/-- Claim bookkeeping for the whole entry loop: pairing each result with the
claimed set its entry started from, every successful match owns a
`(page, index)` key on its reported page that was unclaimed when its entry
began and that ends up in the loop's final claimed set; unmatched results
own no key and the keys are pairwise distinct. -/
theorem matchAux_claims (ratio : String → String → Rat) (cfg : MatchingConfig)
    (pd : List (Int × List Block)) (bodyStart : Int)
    (Hle : ∀ a b, ratio a b ≤ 1) (Heq : ∀ a b, ratio a b = 1 → a = b) :
    ∀ (entries : List TocEntry) (c : List (Int × Nat)),
      ∃ ks : List (Option (Int × Nat)),
        List.Forall₂
          (fun (p : MatchResult × List (Int × Nat))
              (k : Option (Int × Nat)) =>
            (p.1.matched = true → ∃ x, k = some x ∧ x.1 = p.1.page_num ∧
              x ∉ p.2 ∧
              x ∈ (matchAux ratio cfg pd bodyStart entries c).2) ∧
            (p.1.matched = false → k = none))
          ((matchAux ratio cfg pd bodyStart entries c).1.zip
            (claimedStates ratio cfg pd bodyStart entries c)) ks ∧
        (∀ k ∈ ks, ∀ x, k = some x →
          x ∉ c ∧ x ∈ (matchAux ratio cfg pd bodyStart entries c).2) ∧
        ks.Pairwise (fun a b => ∀ x, a = some x → b ≠ some x)
  | [], c => ⟨[], List.Forall₂.nil, fun k hk => absurd hk (List.not_mem_nil k),
      List.Pairwise.nil⟩
  | e :: es, c => by
    obtain ⟨⟨l, hmono⟩, hkey⟩ :=
      processEntry_claims ratio cfg pd bodyStart Hle Heq c e
    obtain ⟨ks, hfa, hfresh, hpw⟩ :=
      matchAux_claims ratio cfg pd bodyStart Hle Heq es
        (processEntry ratio cfg pd bodyStart c e).2
    obtain ⟨l2, h2⟩ := matchAux_mono ratio cfg pd bodyStart Hle Heq es
      (processEntry ratio cfg pd bodyStart c e).2
    rw [show (matchAux ratio cfg pd bodyStart (e :: es) c).1.zip
        (claimedStates ratio cfg pd bodyStart (e :: es) c) =
        ((processEntry ratio cfg pd bodyStart c e).1, c) ::
          ((matchAux ratio cfg pd bodyStart es
            (processEntry ratio cfg pd bodyStart c e).2).1.zip
           (claimedStates ratio cfg pd bodyStart es
            (processEntry ratio cfg pd bodyStart c e).2)) from rfl]
    by_cases hm : (processEntry ratio cfg pd bodyStart c e).1.matched = true
    · obtain ⟨x, hxc, hxin, hxpg⟩ := hkey hm
      have hxfin : x ∈ (matchAux ratio cfg pd bodyStart es
          (processEntry ratio cfg pd bodyStart c e).2).2 := by
        rw [h2]
        exact List.mem_append_right l2 hxin
      refine ⟨some x :: ks,
        List.Forall₂.cons
          ⟨fun _ => ⟨x, rfl, hxpg, hxc, hxfin⟩,
            fun hf => absurd (hf.symm.trans hm)
              (fun hcon => Bool.noConfusion hcon)⟩ hfa, ?_, ?_⟩
      · intro k hk y hky
        rcases List.mem_cons.mp hk with rfl | hk'
        · injection hky with h
          subst h
          exact ⟨hxc, hxfin⟩
        · obtain ⟨hy1, hy2⟩ := hfresh k hk' y hky
          exact ⟨fun hyc => hy1
            (by rw [hmono]; exact List.mem_append_right l hyc), hy2⟩
      · refine List.Pairwise.cons ?_ hpw
        intro b hb y hxy
        injection hxy with h
        subst h
        intro hbx
        exact (hfresh b hb x hbx).1 hxin
    · refine ⟨none :: ks,
        List.Forall₂.cons ⟨fun hmm => absurd hmm hm, fun _ => rfl⟩ hfa,
        ?_, ?_⟩
      · intro k hk y hky
        rcases List.mem_cons.mp hk with rfl | hk'
        · exact Option.noConfusion hky
        · obtain ⟨hy1, hy2⟩ := hfresh k hk' y hky
          exact ⟨fun hyc => hy1
            (by rw [hmono]; exact List.mem_append_right l hyc), hy2⟩
      · exact List.Pairwise.cons (fun b _ y h => Option.noConfusion h) hpw

/-- C1 counterexample: with two TOC entries sharing the clean text
"Appendix A" and a page holding two blocks with that same text, the Matcher
returns two distinct successful `MatchResult`s that record the identical
`(page_num, matched_text)` pair `(0, "Appendix A")` — the claim's
"in particular" reading over `(page_num, matched_text)` pairs fails, because
the claimed-fragment set distinguishes block indices, not texts. -/
theorem C1_counterexample :
    ((matchTocToBody (fun _ _ => 0) {}
        [⟨"Appendix A", "Appendix A", 1, 1, true, ""⟩,
         ⟨"Appendix A:", "Appendix A", 1, 1, true, ""⟩]
        [((0 : Int),
          [⟨"Appendix A", false, false⟩, ⟨"Appendix A", false, false⟩])]
        0).map (fun m => (m.matched, m.page_num, m.matched_text)) =
      [(true, 0, "Appendix A"), (true, 0, "Appendix A")]) ∧
    (matchTocToBody (fun _ _ => 0) {}
        [⟨"Appendix A", "Appendix A", 1, 1, true, ""⟩,
         ⟨"Appendix A:", "Appendix A", 1, 1, true, ""⟩]
        [((0 : Int),
          [⟨"Appendix A", false, false⟩, ⟨"Appendix A", false, false⟩])]
        0).get? 0 ≠
      (matchTocToBody (fun _ _ => 0) {}
        [⟨"Appendix A", "Appendix A", 1, 1, true, ""⟩,
         ⟨"Appendix A:", "Appendix A", 1, 1, true, ""⟩]
        [((0 : Int),
          [⟨"Appendix A", false, false⟩, ⟨"Appendix A", false, false⟩])]
        0).get? 1 := by decide

/-- C1 (amended): for any `ratio` bounded by 1 whose value 1 forces string
equality (both properties of `difflib`'s), pair each result of
`_match_toc_to_body` with the `matched_blocks` set its entry started from
(`claimedStates`): every successful match owns a `(page, block-index)` key
that lies on its reported page, was still unclaimed when its entry began to
be processed, and is recorded in the matcher's final claimed set; unmatched
results own no key and the keys are pairwise distinct — but distinct
successful matches may still record equal `(page_num, matched_text)` pairs
when different blocks carry the same text. -/
theorem C1_theorem (ratio : String → String → Rat) (cfg : MatchingConfig)
    (entries : List TocEntry) (pd : List (Int × List Block)) (bodyStart : Int)
    (Hle : ∀ a b, ratio a b ≤ 1) (Heq : ∀ a b, ratio a b = 1 → a = b) :
    ∃ ks : List (Option (Int × Nat)),
      List.Forall₂
        (fun (p : MatchResult × List (Int × Nat)) (k : Option (Int × Nat)) =>
          (p.1.matched = true → ∃ x, k = some x ∧ x.1 = p.1.page_num ∧
            x ∉ p.2 ∧
            x ∈ (matchAux ratio cfg pd bodyStart entries []).2) ∧
          (p.1.matched = false → k = none))
        ((matchTocToBody ratio cfg entries pd bodyStart).zip
          (claimedStates ratio cfg pd bodyStart entries [])) ks ∧
      ks.Pairwise (fun a b => ∀ x, a = some x → b ≠ some x) :=
  let ⟨ks, hfa, _, hpw⟩ :=
    matchAux_claims ratio cfg pd bodyStart Hle Heq entries []
  ⟨ks, hfa, hpw⟩

/-- C1 witness: the amended theorem at the discrete ratio on a one-entry,
one-block document. -/
theorem C1_witness :
    ∃ ks : List (Option (Int × Nat)),
      List.Forall₂
        (fun (p : MatchResult × List (Int × Nat)) (k : Option (Int × Nat)) =>
          (p.1.matched = true → ∃ x, k = some x ∧ x.1 = p.1.page_num ∧
            x ∉ p.2 ∧
            x ∈ (matchAux (fun a b => if a = b then 1 else 0) {}
              [((0 : Int), [⟨"abc", false, false⟩])] 0
              [⟨"abc", "abc", 1, 1, true, ""⟩] []).2) ∧
          (p.1.matched = false → k = none))
        ((matchTocToBody (fun a b => if a = b then 1 else 0) {}
          [⟨"abc", "abc", 1, 1, true, ""⟩]
          [((0 : Int), [⟨"abc", false, false⟩])] 0).zip
          (claimedStates (fun a b => if a = b then 1 else 0) {}
            [((0 : Int), [⟨"abc", false, false⟩])] 0
            [⟨"abc", "abc", 1, 1, true, ""⟩] [])) ks ∧
      ks.Pairwise (fun a b => ∀ x, a = some x → b ≠ some x) :=
  C1_theorem (fun a b => if a = b then 1 else 0) {}
    [⟨"abc", "abc", 1, 1, true, ""⟩]
    [((0 : Int), [⟨"abc", false, false⟩])] 0
    (fun a b => by
      show (if a = b then (1 : Rat) else 0) ≤ 1
      split <;> norm_num)
    (fun a b h => by
      by_cases hab : a = b
      · exact hab
      · exfalso
        have h' : (if a = b then (1 : Rat) else 0) = 1 := h
        rw [if_neg hab] at h'
        norm_num at h')

theorem isPrefixOf_p_data (l : List Char) :
    "<p".data.isPrefixOf ('<' :: 'p' :: l) = true :=
  List.isPrefixOf_iff_prefix.mpr ⟨l, rfl⟩

/-- With an empty heading map every rendered text block is a paragraph: the
emitted part starts with `<p`. -/
theorem renderBlock_nil_prefix (b : Block) (s : String)
    (h : renderBlock [] b = some s) : "<p".data.isPrefixOf s.data = true := by
  simp only [renderBlock] at h
  split at h
  · exact Option.noConfusion h
  split at h
  · exact Option.noConfusion h
  split at h
  · rename_i entry heq
    rw [show dictLookup ([] : List (String × TocEntry))
        (normalizeText b.text) = none from rfl] at heq
    exact Option.noConfusion heq
  · injection h with h
    subst h
    exact isPrefixOf_p_data _

/-- C9: when the locator finds no TOC, `convert` degrades gracefully — no
TOC entries are parsed, no matching runs, the no-TOC warning is recorded,
every emitted HTML part is a paragraph (or paragraph-wrapped image), and the
`try` body still ends in `success = True`. -/
theorem C9_theorem (tocKeywords nonHeadingPrefixes sectionPrefixes :
      List String)
    (tocMaxSearchPages : Nat) (ratio : String → String → Rat)
    (cfg : MatchingConfig) (pageTexts : List String)
    (pd : List (Int × List Block)) (imageMap : List ((Int × Nat) × String))
    (hloc : findTocPages tocKeywords tocMaxSearchPages pageTexts =
      (none, none)) :
    (convertBody tocKeywords nonHeadingPrefixes sectionPrefixes
      tocMaxSearchPages ratio cfg pageTexts pd imageMap).tocEntries = [] ∧
    (convertBody tocKeywords nonHeadingPrefixes sectionPrefixes
      tocMaxSearchPages ratio cfg pageTexts pd imageMap).matchResults = [] ∧
    (convertBody tocKeywords nonHeadingPrefixes sectionPrefixes
      tocMaxSearchPages ratio cfg pageTexts pd imageMap).warnings =
      ["TOC를 찾을 수 없어 제목 구조를 판별하지 못했습니다."] ∧
    (convertBody tocKeywords nonHeadingPrefixes sectionPrefixes
      tocMaxSearchPages ratio cfg pageTexts pd imageMap).success = true ∧
    ∀ part ∈ (convertBody tocKeywords nonHeadingPrefixes sectionPrefixes
      tocMaxSearchPages ratio cfg pageTexts pd imageMap).htmlParts,
      "<p".data.isPrefixOf part.data = true := by
  have hcb : convertBody tocKeywords nonHeadingPrefixes sectionPrefixes
      tocMaxSearchPages ratio cfg pageTexts pd imageMap =
      { tocEntries := []
        matchResults := []
        warnings := ["TOC를 찾을 수 없어 제목 구조를 판별하지 못했습니다."]
        htmlParts := generateHtmlParts pd [] imageMap
        bodyStart := 0
        success := true } := by
    unfold convertBody
    rw [hloc]
    rfl
  rw [hcb]
  refine ⟨rfl, rfl, rfl, rfl, ?_⟩
  intro part hpart
  have hpart' : part ∈ generateHtmlParts pd [] imageMap := hpart
  simp only [generateHtmlParts] at hpart'
  rcases List.mem_flatMap.mp hpart' with ⟨pg, _, hin⟩
  rcases List.mem_append.mp hin with himg | htxt
  · rcases List.mem_map.mp himg with ⟨kv, _, hkv⟩
    rw [← hkv]
    exact isPrefixOf_p_data _
  · cases hlk : pd.lookup pg with
    | none =>
      rw [hlk] at htxt
      exact absurd htxt (List.not_mem_nil part)
    | some blocks =>
      rw [hlk] at htxt
      rcases List.mem_filterMap.mp htxt with ⟨b, _, hb⟩
      exact renderBlock_nil_prefix b part hb

/-- C9 witness: the no-TOC theorem at a one-page document without a marker,
with one body block and one image. -/
theorem C9_witness :
    (convertBody ["목차"] [] [] 1 (fun _ _ => 0) {} ["hello"]
      [((0 : Int), [⟨"hi", false, false⟩])]
      [(((0 : Int), (0 : Nat)), "img.png")]).tocEntries = [] ∧
    (convertBody ["목차"] [] [] 1 (fun _ _ => 0) {} ["hello"]
      [((0 : Int), [⟨"hi", false, false⟩])]
      [(((0 : Int), (0 : Nat)), "img.png")]).matchResults = [] ∧
    (convertBody ["목차"] [] [] 1 (fun _ _ => 0) {} ["hello"]
      [((0 : Int), [⟨"hi", false, false⟩])]
      [(((0 : Int), (0 : Nat)), "img.png")]).warnings =
      ["TOC를 찾을 수 없어 제목 구조를 판별하지 못했습니다."] ∧
    (convertBody ["목차"] [] [] 1 (fun _ _ => 0) {} ["hello"]
      [((0 : Int), [⟨"hi", false, false⟩])]
      [(((0 : Int), (0 : Nat)), "img.png")]).success = true ∧
    ∀ part ∈ (convertBody ["목차"] [] [] 1 (fun _ _ => 0) {} ["hello"]
      [((0 : Int), [⟨"hi", false, false⟩])]
      [(((0 : Int), (0 : Nat)), "img.png")]).htmlParts,
      "<p".data.isPrefixOf part.data = true :=
  C9_theorem ["목차"] [] [] 1 (fun _ _ => 0) {} ["hello"]
    [((0 : Int), [⟨"hi", false, false⟩])]
    [(((0 : Int), (0 : Nat)), "img.png")] (by decide)

/-- C10: `convert` validates its input before touching the document — a
missing path or a non-`.pdf` suffix (case-insensitive) yields a failed
`ConversionResult` with a non-empty error message, and the result does not
depend on the `try` body at all (the document is never opened); raised
exceptions inside the body are caught and become `error_message`, never a
propagated exception. -/
theorem C10_theorem (inputPath : String) (pathExists : Bool) (sfx : String)
    (body : Except String ConversionResult)
    (h : pathExists = false ∨ (⟨sfx.data.map pyLower⟩ : String) ≠ ".pdf") :
    (convert inputPath pathExists sfx body).success = false ∧
    (∃ msg, (convert inputPath pathExists sfx body).error_message = some msg ∧
      0 < msg.length) ∧
    ∀ body', convert inputPath pathExists sfx body =
      convert inputPath pathExists sfx body' := by
  by_cases hpe : pathExists = false
  · unfold convert
    rw [if_pos hpe]
    refine ⟨rfl, ⟨"파일을 찾을 수 없습니다: " ++ inputPath, rfl, ?_⟩,
      fun body' => by rw [if_pos hpe]⟩
    rw [String.length_append]
    have h14 : (0 : Nat) < ("파일을 찾을 수 없습니다: ").length := by decide
    omega
  · have hsfx : (⟨sfx.data.map pyLower⟩ : String) ≠ ".pdf" := by
      rcases h with h | h
      · exact absurd h hpe
      · exact h
    unfold convert
    rw [if_neg hpe, if_pos hsfx]
    refine ⟨rfl, ⟨"지원하지 않는 파일 형식입니다: " ++ sfx, rfl, ?_⟩,
      fun body' => by rw [if_neg hpe, if_pos hsfx]⟩
    rw [String.length_append]
    have h13 : (0 : Nat) < ("지원하지 않는 파일 형식입니다: ").length := by decide
    omega

/-- C10 witness: the validation theorem at a `.txt` path with an
exception-raising body. -/
theorem C10_witness :
    (convert "doc.txt" true ".txt" (Except.error "boom")).success = false ∧
    (∃ msg, (convert "doc.txt" true ".txt"
        (Except.error "boom")).error_message = some msg ∧ 0 < msg.length) ∧
    ∀ body', convert "doc.txt" true ".txt" (Except.error "boom") =
      convert "doc.txt" true ".txt" body' :=
  C10_theorem "doc.txt" true ".txt" (Except.error "boom")
    (Or.inr (by decide))
